import Mathlib

/-!
Verification of the answer-reconciliation and request-orchestration engine of
the `chess` repository (main server source, `src/unnamed/part_000`).

The TypeScript/Deno source is shallowly embedded: text is `List Char`, the
external model capability is an oracle parameter, JavaScript `Map`s are
`String → Option _` maps, and the cooperative scheduler is an explicit step
relation on a server-state record.  Every definition mirrors the corresponding
source function; doc comments name the source symbol being embedded.
-/

namespace ChessEnsemble

/-- Text, embedded as a list of characters (JS strings; the source is ASCII). -/
abbrev Str := List Char

/-- JS `\s` whitespace class restricted to the characters the source can meet
(space, tab, newline, carriage return, form feed, vertical tab). -/
def isWsChar (c : Char) : Bool :=
  c = ' ' || c = '\t' || c = '\n' || c = '\r' || c = '\x0c' || c = '\x0b'

/-- JS `String.prototype.trim`. -/
def jsTrim (s : Str) : Str :=
  ((s.dropWhile isWsChar).reverse.dropWhile isWsChar).reverse

/-- JS `String.prototype.toUpperCase` (ASCII). -/
def strUpper (s : Str) : Str := s.map Char.toUpper

/-- JS `String.prototype.toLowerCase` (ASCII). -/
def strLower (s : Str) : Str := s.map Char.toLower

/-- Whether `s` starts with `pre` (JS `String.prototype.startsWith`). -/
def strStartsWith : Str → Str → Bool
  | _, [] => true
  | [], _ :: _ => false
  | c :: cs, d :: ds => c = d && strStartsWith cs ds

/-- Case-insensitive `strStartsWith` (used for `/i` regexes). -/
def strStartsWithCI : Str → Str → Bool
  | _, [] => true
  | [], _ :: _ => false
  | c :: cs, d :: ds => c.toLower = d.toLower && strStartsWithCI cs ds

/-- JS `String.prototype.includes`. -/
def strContains (hay needle : Str) : Bool :=
  strStartsWith hay needle ||
    match hay with
    | [] => false
    | _ :: t => strContains t needle

/-- A capital letter A–F (the valid answer-label range of the parser). -/
def isUpperAF (c : Char) : Bool := 'A' ≤ c && c ≤ 'F'

/-- A letter A–F, case-insensitively (`[A-F]` under the `/i` flag). -/
def isAFci (c : Char) : Bool := isUpperAF c.toUpper

/-- A capital letter A–Z (`/^[A-Z]$/` of `normalizeAnswer`). -/
def isUpperAZ (c : Char) : Bool := 'A' ≤ c && c ≤ 'Z'

/-- Insert a character into a sorted duplicate-free list, keeping it sorted and
duplicate-free.  `[...new Set(letters)].sort()` of the source equals a fold of
this insertion over the letter list. -/
def insortChar (c : Char) : List Char → List Char
  | [] => [c]
  | d :: ds =>
    if c < d then c :: d :: ds
    else if c = d then d :: ds
    else d :: insortChar c ds

/-- Deduplicate and sort a character list: the JS idiom
`[...new Set(letters)].sort()` (single-character strings sort like chars). -/
def sortDedup (l : List Char) : List Char := l.foldl (fun acc c => insortChar c acc) []

/-- `array.join(", ")` over single-character strings. -/
def joinCommaSpace : List Char → Str
  | [] => []
  | [c] => [c]
  | c :: rest => c :: ',' :: ' ' :: joinCommaSpace rest

/-- Decimal digits of a natural number (JS `String(n)` for `n ≥ 0`). -/
def natToStr (n : Nat) : Str := Nat.toDigits 10 n

/-- JS `String(n)` for an integer. -/
def intToStr (n : Int) : Str :=
  if n < 0 then '-' :: natToStr n.natAbs else natToStr n.natAbs

/-- Leading-integer parse, the semantics of JS `parseInt` (radix 10): skip
whitespace, optional sign, then a maximal digit run; `none` models `NaN`. -/
def parseIntLeading (s : Str) : Option Int :=
  let s := s.dropWhile isWsChar
  let (neg, s) : Bool × Str :=
    match s with
    | '-' :: t => (true, t)
    | '+' :: t => (false, t)
    | _ => (false, s)
  let digits := s.takeWhile Char.isDigit
  if digits.isEmpty then none
  else
    let n : Nat := digits.foldl (fun acc c => 10 * acc + (c.toNat - '0'.toNat)) 0
    some (if neg then -(n : Int) else (n : Int))

end ChessEnsemble

namespace ChessEnsemble

/-! ### A model of `JSON.parse`

The source calls `JSON.parse` on model output and on error payloads.  We embed
the JSON value space and a recursive-descent parser for the fragment the
source exchanges: objects, arrays, strings (with simple escapes), integers
(fraction digits are consumed and truncated — the sole numeric consumer is
`parseInt`, which truncates anyway), booleans and null. -/

/-- A parsed JSON value. -/
inductive JVal where
  | jstr (s : Str)
  | jnum (n : Int)
  | jbool (b : Bool)
  | jnull
  | jobj (fields : List (Str × JVal))
  | jarr (elems : List JVal)

/-- JSON whitespace. -/
def isJsonWs (c : Char) : Bool := c = ' ' || c = '\t' || c = '\n' || c = '\r'

/-- Skip JSON whitespace. -/
def skipJsonWs (s : Str) : Str := s.dropWhile isJsonWs

/-- Parse a JSON string body after the opening quote; handles `\"`, `\\` and
the common single-character escapes. -/
def parseJStr : Str → Option (Str × Str)
  | [] => none
  | '"' :: rest => some ([], rest)
  | '\\' :: c :: rest =>
    let d : Char :=
      if c = 'n' then '\n' else if c = 't' then '\t' else if c = 'r' then '\r'
      else if c = 'b' then '\x08' else if c = 'f' then '\x0c' else c
    match parseJStr rest with
    | some (s, r) => some (d :: s, r)
    | none => none
  | '\\' :: [] => none
  | c :: rest =>
    match parseJStr rest with
    | some (s, r) => some (c :: s, r)
    | none => none

/-- Parse a JSON number (integer part; fraction digits consumed, truncated). -/
def parseJNum (s : Str) : Option (Int × Str) :=
  let (neg, s1) : Bool × Str := match s with | '-' :: t => (true, t) | _ => (false, s)
  let digits := s1.takeWhile Char.isDigit
  if digits.isEmpty then none
  else
    let n : Nat := digits.foldl (fun acc c => 10 * acc + (c.toNat - '0'.toNat)) 0
    let rest := s1.dropWhile Char.isDigit
    let rest :=
      match rest with
      | '.' :: t => t.dropWhile Char.isDigit
      | _ => rest
    some ((if neg then -(n : Int) else (n : Int)), rest)

mutual

/-- Recursive-descent JSON value parser, fuel-bounded (fuel is spent on each
nested call; the top level supplies more than enough). -/
def parseJVal : Nat → Str → Option (JVal × Str)
  | 0, _ => none
  | fuel + 1, s =>
    match skipJsonWs s with
    | '"' :: rest =>
      match parseJStr rest with
      | some (str, r) => some (.jstr str, r)
      | none => none
    | 't' :: 'r' :: 'u' :: 'e' :: rest => some (.jbool true, rest)
    | 'f' :: 'a' :: 'l' :: 's' :: 'e' :: rest => some (.jbool false, rest)
    | 'n' :: 'u' :: 'l' :: 'l' :: rest => some (.jnull, rest)
    | '\x7b' :: rest =>
      (match skipJsonWs rest with
       | '\x7d' :: r => some (.jobj [], r)
       | _ =>
         match parseJFields fuel rest with
         | some (fs, r) => some (.jobj fs, r)
         | none => none)
    | '[' :: rest =>
      (match skipJsonWs rest with
       | ']' :: r => some (.jarr [], r)
       | _ =>
         match parseJElems fuel rest with
         | some (es, r) => some (.jarr es, r)
         | none => none)
    | s' => Option.map (fun (p : Int × Str) => (JVal.jnum p.1, p.2)) (parseJNum s')

/-- Parse `"key": value (, "key": value)*` then the closing `}`. -/
def parseJFields : Nat → Str → Option (List (Str × JVal) × Str)
  | 0, _ => none
  | fuel + 1, s =>
    match skipJsonWs s with
    | '"' :: rest =>
      match parseJStr rest with
      | some (key, r1) =>
        (match skipJsonWs r1 with
         | ':' :: r2 =>
           match parseJVal fuel r2 with
           | some (v, r3) =>
             (match skipJsonWs r3 with
              | ',' :: r4 =>
                (match parseJFields fuel r4 with
                 | some (fs, r5) => some ((key, v) :: fs, r5)
                 | none => none)
              | '\x7d' :: r4 => some ([(key, v)], r4)
              | _ => none)
           | none => none
         | _ => none)
      | none => none
    | _ => none

/-- Parse `value (, value)*` then the closing `]`. -/
def parseJElems : Nat → Str → Option (List JVal × Str)
  | 0, _ => none
  | fuel + 1, s =>
    match parseJVal fuel s with
    | some (v, r1) =>
      (match skipJsonWs r1 with
       | ',' :: r2 =>
         (match parseJElems fuel r2 with
          | some (es, r3) => some (v :: es, r3)
          | none => none)
       | ']' :: r2 => some ([v], r2)
       | _ => none)
    | none => none

end

/-- `JSON.parse`: parse a whole string as one JSON value (trailing whitespace
allowed, anything else rejected). -/
def jsonParse (s : Str) : Option JVal :=
  match parseJVal (2 * s.length + 4) s with
  | some (v, rest) => if (skipJsonWs rest).isEmpty then some v else none
  | none => none

/-- Field access `obj.name` on a parsed JSON value: `none` models `undefined`
(non-objects have no fields; duplicate keys keep the last occurrence, as
`JSON.parse` does). -/
def jsField (v : JVal) (name : Str) : Option JVal :=
  match v with
  | .jobj fields =>
    match fields.reverse.find? (fun f => decide (f.1 = name)) with
    | some f => some f.2
    | none => none
  | _ => none

mutual

/-- JS `String(v)` coercion of a JSON value (array elements coerce null to the
empty string, as `Array.prototype.toString` does). -/
def jsToStr : JVal → Str
  | .jstr s => s
  | .jnum n => intToStr n
  | .jbool b => if b then ['t','r','u','e'] else ['f','a','l','s','e']
  | .jnull => ['n','u','l','l']
  | .jobj _ => "[object Object]".data
  | .jarr es => jsArrToStr es

/-- JS `Array.prototype.toString`: elements joined by commas, null/undefined
elements become empty. -/
def jsArrToStr : List JVal → Str
  | [] => []
  | [e] => (match e with | .jnull => [] | v => jsToStr v)
  | e :: rest =>
    (match e with | .jnull => [] | v => jsToStr v) ++ ',' :: jsArrToStr rest

end

/-- `String(parsed.answer || "")`: a missing or falsy (`""`, `0`, `false`,
`null`) answer field coerces to the empty string. -/
def jsAnswerStr (v : Option JVal) : Str :=
  match v with
  | none => []
  | some (.jstr s) => s
  | some (.jnum n) => if n = 0 then [] else intToStr n
  | some (.jbool b) => if b then ['t','r','u','e'] else []
  | some .jnull => []
  | some v => jsToStr v

/-- `parseInt(v)` on a JSON field value (`none` models `NaN`): coerce to
string, then leading-integer parse. -/
def jsParseIntField (v : Option JVal) : Option Int :=
  match v with
  | none => none
  | some v => parseIntLeading (jsToStr v)

/-- `Math.min(100, Math.max(0, parseInt(parsed.confidence) || 50))` — note
that a parsed value of `0` is falsy in JS, so it too is replaced by 50. -/
def jsConfidenceOf (v : Option JVal) : Nat :=
  let r : Int :=
    match jsParseIntField v with
    | none => 50
    | some n => if n = 0 then 50 else n
  (min 100 (max 0 r)).toNat

end ChessEnsemble

namespace ChessEnsemble

/-! ### The Answer Parser (`parseAnswerWithConfidence`) -/

/-- The parser's result record `{answer, confidence}`. -/
structure ParsedAnswer where
  answer : Str
  confidence : Nat
deriving DecidableEq, Repr

/-- The global replace `text.replace(/```json\n?|\n?```/g, '')`: at each
position the first alternative (literal ```` ```json ```` plus an optional
newline) is tried before the second (an optional newline plus ```` ``` ````),
and scanning resumes after the consumed match. -/
def stripFencesGo (fuel : Nat) : Str → Str
  | [] => []
  | s@(c :: rest) =>
    match fuel with
    | 0 => s
    | fuel + 1 =>
      match s with
      | '`' :: '`' :: '`' :: 'j' :: 's' :: 'o' :: 'n' :: r =>
        (match r with
         | '\n' :: r' => stripFencesGo fuel r'
         | _ => stripFencesGo fuel r)
      | '\n' :: '`' :: '`' :: '`' :: r => stripFencesGo fuel r
      | '`' :: '`' :: '`' :: r => stripFencesGo fuel r
      | _ => c :: stripFencesGo fuel rest

/-- The fence-stripping replace; every scan step consumes at least one
character, so fuel equal to the length is never exhausted. -/
def stripFences (s : Str) : Str := stripFencesGo s.length s

/-- The replace `jsonStr.replace(/```json|```/g, "")` used on the matched
JSON-shaped substring. -/
def stripTicksGo (fuel : Nat) : Str → Str
  | [] => []
  | s@(c :: rest) =>
    match fuel with
    | 0 => s
    | fuel + 1 =>
      match s with
      | '`' :: '`' :: '`' :: 'j' :: 's' :: 'o' :: 'n' :: r => stripTicksGo fuel r
      | '`' :: '`' :: '`' :: r => stripTicksGo fuel r
      | _ => c :: stripTicksGo fuel rest

/-- The tick-stripping replace (fuel as in `stripFences`). -/
def stripTicks (s : Str) : Str := stripTicksGo s.length s

/-- Split `hay` at the first occurrence of `needle`, returning the part before
it and the part after it. -/
def splitAfterFirst (needle : Str) : Str → Option (Str × Str)
  | [] => if needle.isEmpty then some ([], []) else none
  | c :: t =>
    if strStartsWith (c :: t) needle then some ([], (c :: t).drop needle.length)
    else
      match splitAfterFirst needle t with
      | some (pre, suf) => some (c :: pre, suf)
      | none => none

/-- Match of `/\{[\s\S]*?"answer"[\s\S]*?\}/` anchored at a position starting
with `{`: lazily find the first `"answer"` after the brace, then the first `}`
after that; the returned string is the whole match. -/
def jsonShapedAt : Str → Option Str
  | '\x7b' :: rest =>
    (match splitAfterFirst ('"' :: 'a' :: 'n' :: 's' :: 'w' :: 'e' :: 'r' :: '"' :: []) rest with
     | some (pre, suf) =>
       (match splitAfterFirst ['\x7d'] suf with
        | some (mid, _) =>
          some ('\x7b' :: pre ++ ('"' :: 'a' :: 'n' :: 's' :: 'w' :: 'e' :: 'r' :: '"' :: []) ++ mid ++ ['\x7d'])
        | none => none)
     | none => none)
  | _ => none

/-- `text.match(/\{[\s\S]*?"answer"[\s\S]*?\}/)`: leftmost match wins. -/
def jsonMatchScan : Str → Option Str
  | [] => none
  | c :: t =>
    match jsonShapedAt (c :: t) with
    | some m => some m
    | none => jsonMatchScan t

mutual

/-- State of the `/^\s*([A-F])(?:\s*[,\s]\s*([A-F]))*\s*$/i` matcher right
after a letter: accept the end, a comma separator, or whitespace. -/
def apAfterLetter : Str → Bool
  | [] => true
  | c :: cs =>
    if c = ',' then apAfterComma cs
    else if isWsChar c then apAfterWs cs
    else false

/-- Matcher state after at least one whitespace character since the last
letter (the `[,\s]` separator requirement is already satisfied). -/
def apAfterWs : Str → Bool
  | [] => true
  | c :: cs =>
    if isWsChar c then apAfterWs cs
    else if c = ',' then apAfterComma cs
    else if isAFci c then apAfterLetter cs
    else false

/-- Matcher state after a comma separator: optional whitespace, then a letter
is mandatory. -/
def apAfterComma : Str → Bool
  | [] => false
  | c :: cs =>
    if isWsChar c then apAfterComma cs
    else if isAFci c then apAfterLetter cs
    else false

end

/-- Test of `/^\s*([A-F])(?:\s*[,\s]\s*([A-F]))*\s*$/i` on the whole text:
one-to-many single letters A–F separated by a comma or whitespace. -/
def answerPatternTest (s : Str) : Bool :=
  match s.dropWhile isWsChar with
  | c :: t => isAFci c && apAfterLetter t
  | [] => false

/-- After the keyword pipeline of
`/(?:answer|jawaban|option)\s*:?\s*(\*+)?\s*([A-F](?:,\s*[A-F])*)(?:\s|$|\*)/i`:
greedily read `,\s*[A-F]` groups, returning the letters and the remainder.
Fuel decreases every group; each group consumes at least two characters, so
the initial fuel (the input length) never runs out first. -/
def tamGroups (fuel : Nat) (s : Str) (acc : List Char) : List Char × Str :=
  match fuel with
  | 0 => (acc.reverse, s)
  | fuel + 1 =>
    match s with
    | ',' :: t =>
      let t' := t.dropWhile isWsChar
      (match t' with
       | c :: r => if isAFci c then tamGroups fuel r (c :: acc) else (acc.reverse, s)
       | [] => (acc.reverse, s))
    | _ => (acc.reverse, s)

/-- Try the `textAnswerMatch` regex at one position: keyword, `\s*:?\s*`,
optional emphasis stars, `\s*`, the letter group, then the mandatory trailing
whitespace/star/end.  Returns the letters of capture group 2. -/
def tamAt (s : Str) : Option (List Char) :=
  let afterKw : Option Str :=
    if strStartsWithCI s ('a' :: 'n' :: 's' :: 'w' :: 'e' :: 'r' :: []) then some (s.drop 6)
    else if strStartsWithCI s ('j' :: 'a' :: 'w' :: 'a' :: 'b' :: 'a' :: 'n' :: []) then some (s.drop 7)
    else if strStartsWithCI s ('o' :: 'p' :: 't' :: 'i' :: 'o' :: 'n' :: []) then some (s.drop 6)
    else none
  match afterKw with
  | none => none
  | some r0 =>
    let r1 := r0.dropWhile isWsChar
    let r2 := match r1 with | ':' :: t => t | _ => r1
    let r3 := r2.dropWhile isWsChar
    let r4 := r3.dropWhile (fun c => c = '*')
    let r5 := r4.dropWhile isWsChar
    match r5 with
    | c :: t =>
      if isAFci c then
        let (ls, rest) := tamGroups t.length t [c]
        match rest with
        | [] => some ls
        | d :: _ => if isWsChar d || d = '*' then some ls else none
      else none
    | [] => none

/-- `text.match(/(?:answer|jawaban|option)\s*:?\s*(\*+)?\s*([A-F](?:,\s*[A-F])*)(?:\s|$|\*)/i)`:
scan left to right; the first position where the whole pattern matches wins.
(When the trailing context fails, every backtrack of the letter group lands on
a comma, which the trailing class rejects too, so the position fails — the
greedy read below is exact.) -/
def textAnswerMatchScan : Str → Option (List Char)
  | [] => none
  | c :: t =>
    match tamAt (c :: t) with
    | some ls => some ls
    | none => textAnswerMatchScan t

/-- Resolution step 1 of `parseAnswerWithConfidence`: strip markdown fences,
`JSON.parse` the whole text, and read `answer`/`confidence` off the parsed
value (any successfully parsed JSON value returns here — a non-object yields
an empty answer and default confidence, mirroring property access on a JS
primitive). -/
def parseStepJsonWhole (text : Str) : Option ParsedAnswer :=
  let jsonStr := jsTrim (stripFences text)
  match jsonParse jsonStr with
  | some v => some ⟨strUpper (jsAnswerStr (jsField v ['a','n','s','w','e','r'])),
                    jsConfidenceOf (jsField v ['c','o','n','f','i','d','e','n','c','e'])⟩
  | none => none

/-- Resolution step 2: find the first JSON-object-shaped substring containing
an `"answer"` key, clean stray fence markers, and parse it. -/
def parseStepJsonSub (text : Str) : Option ParsedAnswer :=
  match jsonMatchScan text with
  | some m =>
    let cleanJson := jsTrim (stripTicks m)
    (match jsonParse cleanJson with
     | some v => some ⟨strUpper (jsAnswerStr (jsField v ['a','n','s','w','e','r'])),
                       jsConfidenceOf (jsField v ['c','o','n','f','i','d','e','n','c','e'])⟩
     | none => none)
  | none => none

/-- Resolution step 3: `/^(true|false)$/i` returns the lower-cased text with
confidence 85. -/
def parseStepTrueFalse (text : Str) : Option ParsedAnswer :=
  if strLower text = ['t','r','u','e'] || strLower text = ['f','a','l','s','e'] then
    some ⟨strLower text, 85⟩
  else none

/-- Resolution step 4: the whole text is one-to-six comma/space-separated
letters A–F; the deduplicated sorted letter set gets confidence 70 (more than
six letters falls through, as in the source — the length check precedes the
dedup). -/
def parseStepLetters (text : Str) : Option ParsedAnswer :=
  if answerPatternTest text then
    let letters := (strUpper text).filter isUpperAF
    if 0 < letters.length && letters.length ≤ 6 then
      some ⟨joinCommaSpace (sortDedup letters), 70⟩
    else none
  else none

/-- Resolution step 5: an `Answer: B`-style labeled phrase yields the letter
set with confidence 65. -/
def parseStepLabeled (text : Str) : Option ParsedAnswer :=
  match textAnswerMatchScan text with
  | some ls =>
    let letters := (strUpper ls).filter isUpperAF
    if letters.isEmpty then none
    else some ⟨joinCommaSpace (sortDedup letters), 65⟩
  | none => none

/-- Resolution step 6: a short text (≤ 10 chars) containing one-to-four
letters A–F yields them with confidence 60. -/
def parseStepShort (text : Str) : Option ParsedAnswer :=
  if text.length ≤ 10 then
    let letters := (strUpper text).filter isUpperAF
    if 0 < letters.length && letters.length ≤ 4 then
      some ⟨joinCommaSpace (sortDedup letters), 60⟩
    else none
  else none

/-- The fall-through chain of resolution steps over the trimmed text. -/
def parseSteps (text : Str) : Option ParsedAnswer :=
  (((((parseStepJsonWhole text).or (parseStepJsonSub text)).or
      (parseStepTrueFalse text)).or (parseStepLetters text)).or
      (parseStepLabeled text)).or (parseStepShort text)

/-- `parseAnswerWithConfidence(rawText)`: absent (null or empty) raw text
returns `{answer: "", confidence: 50}` (the `if (!rawText)` guard of the
source); otherwise the resolution steps run on the trimmed text and a total
failure returns `{answer: "", confidence: 0}`. -/
def parseAnswerWithConfidence (rawText : Option Str) : ParsedAnswer :=
  match rawText with
  | none => ⟨[], 50⟩
  | some raw =>
    if raw = [] then ⟨[], 50⟩
    else (parseSteps (jsTrim raw)).getD ⟨[], 0⟩

end ChessEnsemble

namespace ChessEnsemble

/-! ### The error formatter (`formatError`) and the Model Invoker
(`callSingleModel`) -/

/-- Match of `/\{"error".*\}/` (no `s` flag, so `.` stops at a line break):
scan for a position starting with `{"error"`, then extend greedily to the last
`}` on the same line. -/
def jsonErrorScan : Str → Option Str
  | [] => none
  | c :: t =>
    if strStartsWith (c :: t) "\x7b\"error\"".data then
      let line := (c :: t).takeWhile (fun d => !(d = '\n' || d = '\r'))
      let upto := (line.reverse.dropWhile (fun d => d ≠ '\x7d')).reverse
      if upto.isEmpty then jsonErrorScan t else some upto
    else jsonErrorScan t

/-- The `code`/`status` fields of `parsed.error` (optional chaining). -/
def errorCodeStatus (v : JVal) : Option Int × Option Str :=
  match jsField v "error".data with
  | some errv =>
    ((match jsField errv "code".data with
      | some (.jnum n) => some n
      | _ => none),
     (match jsField errv "status".data with
      | some (.jstr s) => some s
      | _ => none))
  | none => (none, none)

/-- The JSON branch of `formatError`: parse the `{"error"...}` payload and map
codes to user-facing strings; any failure (or unmatched code) returns `none`,
falling through to keyword matching. -/
def formatErrorJson (msg : Str) : Option Str :=
  if strContains msg "\x7b\"error\"".data then
    match jsonErrorScan msg with
    | some sub =>
      (match jsonParse sub with
       | some v =>
         let (code, status) := errorCodeStatus v
         if code = some 503 || status = some "UNAVAILABLE".data then some "🔄 Server Sibuk".data
         else if code = some 429 then some "⏳ Rate limit".data
         else if code = some 400 && strContains msg "API key expired".data then
           some "🔑 API key expired".data
         else if code = some 400 && strContains msg "API_KEY_INVALID".data then
           some "🔑 API key invalid".data
         else if code = some 401 then some "🔑 API key salah".data
         else if code = some 404 then some "❓ Model tidak ada".data
         else none
       | none => none)
    | none => none
  else none

/-- `formatError(error)`: classify a raw error message into a short
human-readable string.  Errors are modelled by their message strings; an empty
message models a falsy `error.message` and becomes "Unknown error". -/
def formatError (msg0 : Str) : Str :=
  let msg := if msg0 = [] then "Unknown error".data else msg0
  match formatErrorJson msg with
  | some r => r
  | none =>
    if strContains msg "503".data || strContains msg "overload".data
        || strContains msg "UNAVAILABLE".data then "🔄 Server sibuk".data
    else if strContains msg "429".data || strContains msg "RESOURCE_EXHAUSTED".data
        || strContains msg "quota".data then "⏳ Rate limit".data
    else if strContains msg "timeout".data || strContains msg "DEADLINE_EXCEEDED".data then
      "⏰ Timeout".data
    else if strContains msg "API key expired".data then "🔑 API key expired".data
    else if strContains msg "401".data || strContains msg "API_KEY".data
        || strContains msg "authentication".data then "🔑 API key invalid".data
    else if strContains msg "404".data || strContains msg "not found".data then
      "❓ Model tidak ada".data
    else if strContains msg "SAFETY".data || strContains msg "blocked".data then
      "🚫 Diblokir safety".data
    else if strContains msg "ECONNREFUSED".data || strContains msg "network".data then
      "📡 Network error".data
    else if strContains msg "Empty response".data || strContains msg "parse failure".data then
      "📭 Jawaban kosong".data
    else msg.take 30 ++ (if 30 < msg.length then "...".data else [])

/-- One Model Result (`interface ModelResult`). -/
structure ModelResult where
  success : Bool
  answer : Option Str := none
  confidence : Option Nat := none
  model : String
  raw : Option Str := none
  error : Option Str := none
deriving DecidableEq, Repr

/-- One attempt's interaction with the model capability, as the Invoker sees
it: either the API call throws (with a message) or it returns a response from
which `extractText` extracts `some` raw text or `null`. -/
inductive AttemptOutcome where
  | throws (msg : Str)
  | responds (raw : Option Str)

/-- The body of one retry-loop iteration of `callSingleModel`: a usable raw
text whose parse yields a non-empty answer is a success; anything else is the
attempt's error message (`"Empty response or parse failure"` for unusable or
unparseable text, the thrown message otherwise). -/
def attemptEval (model : String) (oc : AttemptOutcome) : Except Str ModelResult :=
  match oc with
  | .throws msg => .error msg
  | .responds raw =>
    match raw with
    | some rawText =>
      if jsTrim rawText ≠ [] then
        let pa := parseAnswerWithConfidence (some rawText)
        if pa.answer ≠ [] then
          .ok { success := true, answer := some pa.answer, confidence := some pa.confidence,
                model := model, raw := some rawText }
        else .error "Empty response or parse failure".data
      else .error "Empty response or parse failure".data
    | none => .error "Empty response or parse failure".data

/-- The message of a failed attempt (`""` if the attempt succeeded). -/
def attemptErr (model : String) (oc : AttemptOutcome) : Str :=
  match attemptEval model oc with
  | .error m => m
  | .ok _ => []

/-- `errMsg.includes("503") || errMsg.includes("429") || errMsg.includes("Overload")`. -/
def isOverloadMsg (msg : Str) : Bool :=
  strContains msg "503".data || strContains msg "429".data || strContains msg "Overload".data

/-- The terminal failure result of the last attempt. -/
def lastAttemptFailure (model : String) (msg : Str) : ModelResult :=
  { success := false, model := model,
    error := some (if isOverloadMsg msg then "Server Overload (Max Retries)".data
                   else formatError msg) }

/-- The retry loop of `callSingleModel`, with the environment `env` giving
attempt `i`'s outcome.  Returns the Model Result together with the list of
backoff delays awaited (one per failed non-final attempt).  Fuel counts the
remaining loop iterations (`retries - attempt + 1`), so the `fuel = 0` base
case is exactly the `return ... "Unknown error"` after the `for` loop. -/
def callSingleModelGo (env : Nat → AttemptOutcome) (model : String) (retries : Nat) :
    Nat → Nat → ModelResult × List Nat
  | _, 0 => ({ success := false, model := model, error := some "Unknown error".data }, [])
  | attempt, fuel + 1 =>
    match attemptEval model (env attempt) with
    | .ok r => (r, [])
    | .error msg =>
      if attempt = retries then (lastAttemptFailure model msg, [])
      else
        let w := (if isOverloadMsg msg then 2000 else 1000) * attempt
        let (r, ws) := callSingleModelGo env model retries (attempt + 1) fuel
        (r, w :: ws)

/-- `callSingleModel(model, prompt, retries)`: attempts run from 1 to
`retries`; the prompt is implicit in `env` (every attempt sends the same
prompt to the same model). -/
def callSingleModel (env : Nat → AttemptOutcome) (model : String) (retries : Nat := 3) :
    ModelResult × List Nat :=
  callSingleModelGo env model retries 1 retries

end ChessEnsemble

namespace ChessEnsemble

/-! ### Answer normalization and the Voting Engine (`callGeminiEnsemble`,
`normalizeAnswer`, `_confidenceWeightedVote`) -/

/-- The configured model list: three workers and the designated judge. -/
def MODELS : List String :=
  ["gemini-3-flash-preview", "gemini-2.0-flash-001", "gemini-2.5-flash-lite", "gemini-2.5-pro"]

/-- One structured question option `{label, text}`. -/
structure QuestionOption where
  label : Str
  text : Str

/-- Split a string on maximal runs of separator characters (JS
`split(/[\s,]+/)`; JS also emits empty boundary tokens, which the
single-letter filter right after discards, so they are omitted here). -/
def splitFieldsGo (sep : Char → Bool) : Nat → Str → List Str
  | 0, _ => []
  | fuel + 1, s =>
    let s1 := s.dropWhile sep
    match s1 with
    | [] => []
    | _ =>
      (s1.takeWhile (fun c => !sep c)) ::
        splitFieldsGo sep fuel (s1.dropWhile (fun c => !sep c))

/-- Fuelled wrapper for `splitFieldsGo` (each round consumes ≥ 1 char). -/
def splitFields (sep : Char → Bool) (s : Str) : List Str :=
  splitFieldsGo sep (s.length + 1) s

/-- `normalizeAnswer(answer)` (module level, used by the confidence-weighted
variant): TRUE/FALSE map to a lone lower-case token; otherwise the
comma/space-separated single letters A–Z are deduplicated and sorted. -/
def normalizeAnswer (answer : Option Str) : List Str :=
  match answer with
  | none => []
  | some a =>
    if a = [] then []
    else
      let upperAnswer := jsTrim (strUpper a)
      if upperAnswer = "TRUE".data || upperAnswer = "FALSE".data then
        [strLower upperAnswer]
      else
        let labels := ((splitFields (fun c => isWsChar c || c = ',') upperAnswer).map jsTrim).filter
          (fun t => decide (t.length = 1) && isUpperAZ (t.headD ' '))
        (sortDedup (labels.map (fun t => t.headD ' '))).map (fun c => [c])

/-- The `normalize` helper inside `callGeminiEnsemble`: TRUE/FALSE literally;
single-letter answers of a two-option true/false question map through the
option labels; otherwise the sorted deduplicated A–F letters; otherwise an
exact option-text match's label; otherwise the upper-cased text itself. -/
def ensembleNormalize (ans : Option Str) (opts : List QuestionOption) : Str :=
  match ans with
  | none => []
  | some ansS =>
    if ansS = [] then []
    else
      let a := strUpper (jsTrim ansS)
      if a = "TRUE".data then "true".data
      else if a = "FALSE".data then "false".data
      else
        let tfResult : Option Str :=
          if opts.length = 2 then
            let optTexts := opts.map (fun o => strLower (jsTrim o.text))
            if optTexts.contains "true".data || optTexts.contains "false".data then
              let trueOpt := opts.find? (fun o => decide (strLower (jsTrim o.text) = "true".data))
              let falseOpt := opts.find? (fun o => decide (strLower (jsTrim o.text) = "false".data))
              if a = "A".data && (trueOpt.map (·.label) == some "A".data) then some "true".data
              else if a = "A".data && (falseOpt.map (·.label) == some "A".data) then some "false".data
              else if a = "B".data && (trueOpt.map (·.label) == some "B".data) then some "true".data
              else if a = "B".data && (falseOpt.map (·.label) == some "B".data) then some "false".data
              else none
            else none
          else none
        match tfResult with
        | some r => r
        | none =>
          let letters := a.filter isUpperAF
          if letters ≠ [] then joinCommaSpace (sortDedup letters)
          else
            match (if opts.isEmpty then none
                   else opts.find? (fun o =>
                     !o.text.isEmpty && decide (strLower (jsTrim o.text) = strLower a))) with
            | some o => o.label
            | none => a

/-- One cast vote: a successful worker's normalized answer with its
confidence and model id. -/
structure Vote where
  ans : Str
  conf : Nat
  model : String

/-- The votes cast in one ensemble round: each successful worker whose
normalized answer is non-empty contributes one vote
(`if (r.success && normalizedAnswers[i])`). -/
def mkVotes (results : List ModelResult) (opts : List QuestionOption) : List Vote :=
  results.filterMap (fun r =>
    if r.success then
      let n := ensembleNormalize r.answer opts
      if n = [] then none else some ⟨n, r.confidence.getD 0, r.model⟩
    else none)

/-- One entry of the `voteCounts` record. -/
structure VoteEntry where
  answer : Str
  count : Nat
  total : Nat
  models : List String

/-- Total confidence of the votes for answer `a`. -/
def sumConfAt (votes : List Vote) (a : Str) : Nat :=
  ((votes.filter (fun v => decide (v.ans = a))).map (·.conf)).sum

/-- The `voteCounts` record built by the `forEach` loop, presented as its
first-occurrence-order grouping: one entry per distinct normalized answer, in
the order answers first appear, carrying vote count, total confidence and
contributing models — exactly the insertion-order dictionary the source
builds. -/
def tallyVotes : List Vote → List VoteEntry
  | [] => []
  | v :: vs =>
    ⟨v.ans,
     1 + vs.countP (fun u => decide (u.ans = v.ans)),
     v.conf + sumConfAt vs v.ans,
     v.model :: (vs.filter (fun u => decide (u.ans = v.ans))).map (·.model)⟩
      :: tallyVotes (vs.filter (fun u => decide (u.ans ≠ v.ans)))
termination_by l => l.length
decreasing_by
  simp only [List.length_cons]
  exact Nat.lt_succ_of_le (List.length_filter_le _ _)

/-- `Math.round(totalConfidence / count)` over naturals (round half up). -/
def jsRound (total count : Nat) : Nat := (2 * total + count) / (2 * count)

/-- One element of `sortedVotes`: the tally entry with its rounded average
confidence. -/
structure SortedVote where
  answer : Str
  count : Nat
  avgConfidence : Nat
  models : List String

/-- Map a tally entry to its `sortedVotes` shape. -/
def toSortedVote (e : VoteEntry) : SortedVote :=
  ⟨e.answer, e.count, jsRound e.total e.count, e.models⟩

/-- The sort key comparison: count descending, then average confidence
descending (the JS comparator), as a Boolean "x sorts no later than y". -/
def lexGeB (x y : Nat × Nat) : Bool :=
  decide (y.1 < x.1 ∨ (x.1 = y.1 ∧ y.2 ≤ x.2))

/-- Stable descending insertion by key: `x` is placed before the first element
it compares `≥` to, so earlier-arriving equal-key elements keep their order —
the behaviour of the (stable) `Array.prototype.sort`. -/
def insDescBy (key : α → Nat × Nat) (x : α) : List α → List α
  | [] => [x]
  | y :: ys => if lexGeB (key x) (key y) then x :: y :: ys else y :: insDescBy key x ys

/-- Stable insertion sort by descending key. -/
def sortDescBy (key : α → Nat × Nat) : List α → List α
  | [] => []
  | x :: xs => insDescBy key x (sortDescBy key xs)

/-- Sort key of a `sortedVotes` element. -/
def voteKey (v : SortedVote) : Nat × Nat := (v.count, v.avgConfidence)

/-- The sorted vote list of one ensemble round over the three workers. -/
def sortedVotesOf (r₁ r₂ r₃ : ModelResult) (opts : List QuestionOption) : List SortedVote :=
  sortDescBy voteKey ((tallyVotes (mkVotes [r₁, r₂, r₃] opts)).map toSortedVote)

/-- The voting outcome record (ensemble mode returns only these fields). -/
structure VotingResult where
  finalAnswer : Str
  finalConfidence : Nat
  method : String
deriving DecidableEq, Repr

/-- Decidable equality of `Except` outcomes (for evaluating concrete voting
rounds). -/
instance {ε α : Type} [DecidableEq ε] [DecidableEq α] : DecidableEq (Except ε α) := fun x y =>
  match x, y with
  | .ok a, .ok b =>
    if h : a = b then isTrue (by rw [h]) else isFalse (fun hc => h (Except.ok.inj hc))
  | .error a, .error b =>
    if h : a = b then isTrue (by rw [h]) else isFalse (fun hc => h (Except.error.inj hc))
  | .ok _, .error _ => isFalse (fun hc => Except.noConfusion hc)
  | .error _, .ok _ => isFalse (fun hc => Except.noConfusion hc)

/-- `results.filter(r => r.success).sort((a,b) => b.confidence! - a.confidence!)[0]`:
the first successful result of maximal confidence. -/
def selectBest (results : List ModelResult) : Option ModelResult :=
  (sortDescBy (fun r => (r.confidence.getD 0, 0)) (results.filter (·.success))).head?

/-- The terminal error when the workers and the judge all failed. -/
def allModelsFailedMsg : Str := "All models failed including Judge".data

/-- The no-majority path of `callGeminiEnsemble`: the judge's own result is
authoritative if it succeeded; otherwise the best successful worker; otherwise
the terminal all-failed error.  (The judge was invoked on the same prompt as
the workers: `callSingleModel(MODELS[3], prompt)`.) -/
def judgeBranch (results : List ModelResult) (judge : ModelResult) :
    Except Str VotingResult × Nat :=
  if judge.success then
    (.ok ⟨judge.answer.getD [], judge.confidence.getD 0, "judge"⟩, 1)
  else
    match selectBest results with
    | some b => (.ok ⟨b.answer.getD [], b.confidence.getD 0, "fallback_worker"⟩, 1)
    | none => (.error allModelsFailedMsg, 1)

/-- `callGeminiEnsemble(prompt, options)` over the outcomes of the three
parallel workers and the (lazily consulted) judge; the second component counts
judge invocations (0 or 1). -/
def callGeminiEnsemble (r₁ r₂ r₃ judge : ModelResult) (opts : List QuestionOption) :
    Except Str VotingResult × Nat :=
  match (sortedVotesOf r₁ r₂ r₃ opts).head? with
  | some topVote =>
    if 2 ≤ topVote.count then
      (.ok ⟨topVote.answer, topVote.avgConfidence,
            if topVote.count = 3 then "unanimous" else "majority"⟩, 0)
    else judgeBranch [r₁, r₂, r₃] judge
  | none => judgeBranch [r₁, r₂, r₃] judge

/-- How many of the three workers support normalized answer `a`. -/
def countVotesFor (r₁ r₂ r₃ : ModelResult) (opts : List QuestionOption) (a : Str) : Nat :=
  (mkVotes [r₁, r₂, r₃] opts).countP (fun v => decide (v.ans = a))

/-- Total confidence of the workers supporting normalized answer `a`. -/
def sumConfFor (r₁ r₂ r₃ : ModelResult) (opts : List QuestionOption) (a : Str) : Nat :=
  sumConfAt (mkVotes [r₁, r₂, r₃] opts) a

end ChessEnsemble

namespace ChessEnsemble

/-! ### The confidence-weighted voting variant (`_confidenceWeightedVote`) -/

/-- A reliability-adjusted result (`{...r, confidence, unreliable}`). -/
structure AdjResult where
  answer : Option Str
  confidence : Nat
  model : String
  unreliable : Bool
deriving DecidableEq, Repr

/-- STEP 1 of `_confidenceWeightedVote`: a result proposing ≥ 4 distinct
normalized answer letters is marked unreliable and its confidence is capped at
40 (`Math.min(r.confidence!, 40)`). -/
def cwAdjust (r : ModelResult) : AdjResult :=
  if 4 ≤ (normalizeAnswer r.answer).length then
    ⟨r.answer, min (r.confidence.getD 0) 40, r.model, true⟩
  else
    ⟨r.answer, r.confidence.getD 0, r.model, false⟩

/-- The adjusted result list entering consensus tallying
(`reliableResults`). -/
def cwReliable (succ : List ModelResult) : List AdjResult := succ.map cwAdjust

/-- The exact-string vote list of the weighted variant: keys are
`r.answer!.toUpperCase().trim()`. -/
def cwVotes (reliable : List AdjResult) : List Vote :=
  reliable.map (fun r => ⟨jsTrim (strUpper (r.answer.getD [])), r.confidence, r.model⟩)

/-- `sortedAnswers` of the weighted variant. -/
def cwSorted (reliable : List AdjResult) : List SortedVote :=
  sortDescBy voteKey ((tallyVotes (cwVotes reliable)).map toSortedVote)

/-- `reduce((a, b) => a.confidence! > b.confidence! ? a : b)`: the
last-occurring maximal-confidence element. -/
def cwBest : List AdjResult → Option AdjResult
  | [] => none
  | r :: rs => some (rs.foldl (fun a b => if a.confidence > b.confidence then a else b) r)

/-- STEP 3's no-consensus fallback: the primary model if reliable, else the
secondary model if reliable, else the highest-confidence result. -/
def cwFallback (reliable : List AdjResult) : Str × Nat × String :=
  match reliable.find? (fun r => r.model == MODELS[0]! && !r.unreliable) with
  | some p => (p.answer.getD [], p.confidence, "primary")
  | none =>
    match reliable.find? (fun r => r.model == MODELS[1]! && !r.unreliable) with
    | some s => (s.answer.getD [], s.confidence, "secondary")
    | none =>
      match cwBest reliable with
      | some b => (b.answer.getD [], b.confidence, "fallback")
      | none => ([], 0, "fallback")

/-- The voting outcome record of the weighted variant (with its `votes` and
`modelAnswers` summaries). -/
structure CWVotingResult where
  finalAnswer : Str
  finalConfidence : Nat
  votes : List (Str × Nat × Nat)
  modelAnswers : List (String × Str × Nat)
  method : String

/-- The ≥ 2-successes body of `_confidenceWeightedVote`: cap unreliable
results (STEP 1), tally exact answer strings (STEP 2), and decide
consensus/primary/secondary/fallback (STEP 3). -/
def cwMain (succ : List ModelResult) : CWVotingResult :=
  let reliable := cwReliable succ
  let sorted := cwSorted reliable
  let decision : Str × Nat × String :=
    match sorted.head? with
    | some top =>
      if 2 ≤ top.count then (top.answer, top.avgConfidence, "consensus")
      else cwFallback reliable
    | none => cwFallback reliable
  ⟨decision.1, decision.2.1,
   sorted.map (fun a => (a.answer, a.count, a.avgConfidence)),
   reliable.map (fun r =>
     (r.model ++ (if r.unreliable then " ⚠️" else ""), r.answer.getD [], r.confidence)),
   decision.2.2⟩

/-- `_confidenceWeightedVote(modelResults)`: single success returned directly;
otherwise reliability-capped results are tallied on exact answer strings and
a ≥ 2 count wins ("consensus"), with primary/secondary/fallback otherwise;
no successes raise the terminal error. -/
def _confidenceWeightedVote (results : List ModelResult) : Except Str CWVotingResult :=
  let succ := results.filter (·.success)
  match succ with
  | [] => .error "All models failed in ensemble".data
  | [r] =>
    .ok ⟨r.answer.getD [], r.confidence.getD 0,
         [(r.answer.getD [], 1, r.confidence.getD 0)],
         [(r.model, r.answer.getD [], r.confidence.getD 0)], "single"⟩
  | a :: b :: t => .ok (cwMain (a :: b :: t))

end ChessEnsemble

namespace ChessEnsemble

/-! ### Dedup Cache, In-flight Coalescer and Request Queue

The process state (`recentAnswers`, `inflight`, `requestQueue`, the worker's
current entry) and the atomic transitions of the cooperative scheduler: an
admission (`POST /ask` from `vacuum()` through `processQueue()` runs with no
intervening suspension point), the worker's dequeue, and the worker's
completion of one entry (`recentAnswers.set` / `resolve` / the `finally`
`inflight.delete` also run in one synchronous block).  Shared promises are
modelled by numeric ids (`nextPid` is the allocator). -/

/-- `TTL_MS = 120 * 1000`. -/
def TTL_MS : Nat := 120 * 1000

/-- A Dedup Cache entry `{answer, ts}`. -/
structure CacheEntry where
  answer : Str
  ts : Nat
deriving DecidableEq, Repr

/-- A Request Queue entry `{key, rawPrompt, resolve/reject, startTime}` — the
shared promise's resolve/reject pair is the promise id. -/
structure QueueEntry where
  key : String
  rawPrompt : Str
  pid : Nat
  startTime : Nat
deriving DecidableEq, Repr

/-- The module-level mutable state of the server process. -/
structure ServerState where
  recentAnswers : String → Option CacheEntry
  inflight : String → Option Nat
  queue : List QueueEntry
  processing : Option QueueEntry
  nextPid : Nat

/-- The state at process start: empty maps, empty queue, idle worker. -/
def initState : ServerState :=
  ⟨fun _ => none, fun _ => none, [], none, 0⟩

/-- Point update of a string-keyed map. -/
def setMap (m : String → Option α) (k : String) (v : Option α) : String → Option α :=
  fun k' => if k' = k then v else m k'

/-- `vacuum()`: drop every cache entry strictly older than the TTL. -/
def vacuumState (s : ServerState) (now : Nat) : ServerState :=
  { s with recentAnswers := fun k =>
      match s.recentAnswers k with
      | some e => if TTL_MS < now - e.ts then none else some e
      | none => none }

/-- What the admission path returns to the caller: a fresh cached answer, the
id of an existing in-flight computation to await, or the id of the newly
enqueued computation. -/
inductive AdmitOutcome where
  | cachedHit (answer : Str)
  | coalesced (pid : Nat)
  | enqueued (pid : Nat)
deriving DecidableEq, Repr

/-- The cache-miss tail of the admission path: an existing in-flight handle is
awaited; otherwise a fresh promise is installed in the in-flight map and a
queue entry pushed. -/
def admitMiss (s1 : ServerState) (k : String) (raw : Str) (now : Nat) :
    AdmitOutcome × ServerState :=
  match s1.inflight k with
  | some p => (.coalesced p, s1)
  | none =>
    let p := s1.nextPid
    (.enqueued p,
     { s1 with queue := s1.queue ++ [⟨k, raw, p, now⟩],
               inflight := setMap s1.inflight k (some p),
               nextPid := p + 1 })

/-- The `POST /ask` admission path for a derived key `k` at time `now`:
`vacuum()`, then the TTL-guarded cache lookup, then the in-flight check, then
enqueue.  The whole path is synchronous in the source. -/
def admitRequest (s : ServerState) (k : String) (raw : Str) (now : Nat) :
    AdmitOutcome × ServerState :=
  let s1 := vacuumState s now
  match s1.recentAnswers k with
  | some e =>
    if now - e.ts ≤ TTL_MS then (.cachedHit e.answer, s1)
    else admitMiss s1 k raw now
  | none => admitMiss s1 k raw now

/-- The worker loop's dequeue (`requestQueue.shift()`): only when the worker
is idle (the `isProcessing` guard makes the loop the queue's sole consumer). -/
def startProcess (s : ServerState) : ServerState :=
  match s.processing, s.queue with
  | none, e :: rest => { s with processing := some e, queue := rest }
  | _, _ => s

/-- How one dequeued entry's reconciliation settled. -/
inductive Settle where
  | success (answer : Str) (confidence : Nat)
  | failure (err : Str)
deriving DecidableEq, Repr

/-- The worker's completion of the current entry, one synchronous block: on
success the answer is cached and the shared promise resolved; on failure the
promise is rejected; in both cases (`finally`) the key leaves the in-flight
map.  The returned message `(pid, outcome)` is the unique settlement
broadcast to every caller awaiting that promise id. -/
def finishProcess (s : ServerState) (o : Settle) (now : Nat) :
    ServerState × Option (Nat × Settle) :=
  match s.processing with
  | none => (s, none)
  | some e =>
    match o with
    | .success ans _ =>
      ({ s with recentAnswers := setMap s.recentAnswers e.key (some ⟨ans, now⟩),
                inflight := setMap s.inflight e.key none,
                processing := none },
       some (e.pid, o))
    | .failure _ =>
      ({ s with inflight := setMap s.inflight e.key none,
                processing := none },
       some (e.pid, o))

/-- One atomic transition of the cooperative scheduler. -/
inductive SStep : ServerState → ServerState → Prop where
  | admission (s : ServerState) (k : String) (raw : Str) (now : Nat) :
      SStep s (admitRequest s k raw now).2
  | dequeue (s : ServerState) : SStep s (startProcess s)
  | completion (s : ServerState) (o : Settle) (now : Nat) :
      SStep s (finishProcess s o now).1

/-- States reachable from process start. -/
def Reachable (s : ServerState) : Prop :=
  Relation.ReflTransGen SStep initState s

/-- The structural invariants of the admission path and worker loop. -/
structure StateInv (s : ServerState) : Prop where
  excl : ∀ k, (s.recentAnswers k).isSome → s.inflight k = none
  queued_inflight : ∀ e ∈ s.queue, (s.inflight e.key).isSome
  proc_inflight : ∀ e, s.processing = some e → (s.inflight e.key).isSome
  queue_nodup : (s.queue.map (·.key)).Nodup
  proc_queue : ∀ e e', s.processing = some e → e' ∈ s.queue → e'.key ≠ e.key

/-- A sequence of admissions for the same key (a burst of identical
requests), collecting each caller's outcome. -/
def admitSeq (s : ServerState) (k : String) : List (Str × Nat) → List AdmitOutcome × ServerState
  | [] => ([], s)
  | (raw, now) :: rest =>
    let (r, s') := admitRequest s k raw now
    let (rs, s'') := admitSeq s' k rest
    (r :: rs, s'')

end ChessEnsemble

namespace ChessEnsemble

/-! ### Lemmas about vote tallying and sorting -/

theorem lexGeB_refl (x : Nat × Nat) : lexGeB x x = true := by
  simp [lexGeB]

theorem lexGeB_trans {x y z : Nat × Nat} (h₁ : lexGeB x y = true) (h₂ : lexGeB y z = true) :
    lexGeB x z = true := by
  simp [lexGeB] at h₁ h₂ ⊢
  omega

theorem lexGeB_total {x y : Nat × Nat} (h : ¬lexGeB x y = true) : lexGeB y x = true := by
  simp [lexGeB] at h ⊢
  omega

theorem mem_insDescBy {key : α → Nat × Nat} {x y : α} {l : List α} :
    y ∈ insDescBy key x l ↔ y = x ∨ y ∈ l := by
  induction l with
  | nil => simp [insDescBy]
  | cons z zs ih =>
    simp only [insDescBy]
    split
    · simp
    · simp only [List.mem_cons, ih]
      tauto

theorem mem_sortDescBy {key : α → Nat × Nat} {y : α} {l : List α} :
    y ∈ sortDescBy key l ↔ y ∈ l := by
  induction l with
  | nil => simp [sortDescBy]
  | cons x xs ih =>
    simp only [sortDescBy, mem_insDescBy, List.mem_cons, ih]

/-- The head of the descending sort is a member and key-maximal. -/
theorem sortDescBy_head_max {key : α → Nat × Nat} :
    ∀ (l : List α) (h : α), (sortDescBy key l).head? = some h →
      h ∈ l ∧ ∀ y ∈ l, lexGeB (key h) (key y) = true := by
  intro l
  induction l with
  | nil => intro h hh; simp [sortDescBy] at hh
  | cons x xs ih =>
    intro h hh
    simp only [sortDescBy] at hh
    cases hsx : sortDescBy key xs with
    | nil =>
      rw [hsx] at hh
      simp only [insDescBy, List.head?] at hh
      cases hh
      constructor
      · exact List.mem_cons_self _ _
      · intro y hy
        rcases (by simpa using hy : y = x ∨ y ∈ xs) with rfl | hy'
        · exact lexGeB_refl _
        · exfalso
          have : y ∈ sortDescBy key xs := mem_sortDescBy.mpr hy'
          rw [hsx] at this
          simp at this
    | cons z zs =>
      have hz := ih z (by rw [hsx]; rfl)
      rw [hsx] at hh
      simp only [insDescBy] at hh
      split at hh
      · rename_i hxz
        simp only [List.head?] at hh
        cases hh
        refine ⟨List.mem_cons_self _ _, ?_⟩
        intro y hy
        rcases (by simpa using hy : y = x ∨ y ∈ xs) with rfl | hy'
        · exact lexGeB_refl _
        · exact lexGeB_trans hxz (hz.2 y hy')
      · rename_i hxz
        simp only [List.head?] at hh
        cases hh
        refine ⟨List.mem_cons_of_mem _ hz.1, ?_⟩
        intro y hy
        rcases (by simpa using hy : y = x ∨ y ∈ xs) with rfl | hy'
        · exact lexGeB_total hxz
        · exact hz.2 y hy'

theorem sortDescBy_eq_nil {key : α → Nat × Nat} {l : List α} :
    sortDescBy key l = [] ↔ l = [] := by
  constructor
  · intro h
    cases l with
    | nil => rfl
    | cons x xs =>
      exfalso
      have : x ∈ sortDescBy key (x :: xs) := mem_sortDescBy.mpr (List.mem_cons_self _ _)
      rw [h] at this
      simp at this
  · intro h; subst h; rfl

/-- Disjoint predicates count at most the length between them. -/
theorem countP_disjoint {l : List α} {p q : α → Bool}
    (h : ∀ x ∈ l, ¬(p x = true ∧ q x = true)) :
    l.countP p + l.countP q ≤ l.length := by
  induction l with
  | nil => simp
  | cons a t ih =>
    have ht : ∀ x ∈ t, ¬(p x = true ∧ q x = true) :=
      fun x hx => h x (List.mem_cons_of_mem _ hx)
    have ha := h a (List.mem_cons_self _ _)
    rw [List.countP_cons, List.countP_cons]
    simp only [List.length_cons]
    have := ih ht
    by_cases hpa : p a = true <;> by_cases hqa : q a = true <;>
      simp [hpa, hqa] at ha ⊢ <;> omega

/-- Every tally entry records the exact vote count, total confidence and an
answer that was actually voted for. -/
theorem tally_spec : ∀ {votes : List Vote}, ∀ E ∈ tallyVotes votes,
    E.count = votes.countP (fun u => decide (u.ans = E.answer)) ∧
    E.total = sumConfAt votes E.answer ∧
    ∃ v ∈ votes, v.ans = E.answer := by
  intro votes
  induction votes using tallyVotes.induct with
  | case1 => intro E hE; simp [tallyVotes] at hE
  | case2 v vs ih =>
    intro E hE
    simp only [tallyVotes, List.mem_cons] at hE
    rcases hE with rfl | hE
    · refine ⟨?_, ?_, ⟨v, List.mem_cons_self _ _, rfl⟩⟩
      · simp only [List.countP_cons, decide_eq_true_eq]
        simp
        omega
      · simp only [sumConfAt, List.filter_cons]
        simp
    · have hrec := ih E hE
      have hne : E.answer ≠ v.ans := by
        rcases hrec.2.2 with ⟨u, hu, hua⟩
        have h2 := List.mem_filter.mp hu
        simp only [decide_eq_true_eq] at h2
        intro hcon
        exact h2.2 (hua.trans hcon)
      have hcount : (vs.filter (fun u => decide (u.ans ≠ v.ans))).countP
          (fun u => decide (u.ans = E.answer)) =
          vs.countP (fun u => decide (u.ans = E.answer)) := by
        rw [List.countP_filter]
        apply List.countP_congr
        intro u _
        by_cases hu : u.ans = E.answer
        · have hnv : u.ans ≠ v.ans := fun hc => hne (by rw [← hu, hc])
          simp only [hu, hnv, decide_eq_true_eq]
          simp [hne]
        · simp [hu]
      have hsum : sumConfAt (vs.filter (fun u => decide (u.ans ≠ v.ans))) E.answer =
          sumConfAt vs E.answer := by
        simp only [sumConfAt, List.filter_filter]
        congr 2
        apply List.filter_congr
        intro u _
        by_cases hu : u.ans = E.answer
        · have hnv : u.ans ≠ v.ans := fun hc => hne (by rw [← hu, hc])
          simp only [hu, hnv, decide_eq_true_eq]
          simp [hne]
        · simp [hu]
      refine ⟨?_, ?_, ?_⟩
      · rw [hrec.1, hcount, List.countP_cons]
        have : ¬(v.ans = E.answer) := fun hc => hne hc.symm
        simp [this]
      · rw [hrec.2.1, hsum]
        simp only [sumConfAt, List.filter_cons]
        have : ¬(v.ans = E.answer) := fun hc => hne hc.symm
        simp [this]
      · rcases hrec.2.2 with ⟨u, hu, hua⟩
        exact ⟨u, List.mem_cons_of_mem _ (List.mem_filter.mp hu).1, hua⟩

/-- A voted-for answer has a tally entry. -/
theorem tally_covers : ∀ {votes : List Vote} {a : Str},
    0 < votes.countP (fun u => decide (u.ans = a)) →
    ∃ E ∈ tallyVotes votes, E.answer = a := by
  intro votes
  induction votes using tallyVotes.induct with
  | case1 => intro a h; simp at h
  | case2 v vs ih =>
    intro a h
    by_cases hav : a = v.ans
    · subst hav
      simp only [tallyVotes]
      exact ⟨_, List.mem_cons_self _ _, rfl⟩
    · have hvne : v.ans ≠ a := fun hc => hav hc.symm
      have hvs : 0 < vs.countP (fun u => decide (u.ans = a)) := by
        rw [List.countP_cons] at h
        simpa [hvne] using h
      have heq : (vs.filter (fun u => decide (u.ans ≠ v.ans))).countP
          (fun u => decide (u.ans = a)) = vs.countP (fun u => decide (u.ans = a)) := by
        rw [List.countP_filter]
        apply List.countP_congr
        intro u _
        by_cases hu : u.ans = a
        · have hnv : u.ans ≠ v.ans := fun hc => hav (by rw [← hu, hc])
          simp only [hu, hnv, decide_eq_true_eq]
          simp [hav]
        · simp [hu]
      rcases @ih a (by rw [heq]; exact hvs) with ⟨E, hE, hEa⟩
      refine ⟨E, ?_, hEa⟩
      simp only [tallyVotes, List.mem_cons]
      exact Or.inr hE

end ChessEnsemble

namespace ChessEnsemble

theorem lexGeB_fst {x y : Nat × Nat} (h : lexGeB x y = true) : y.1 ≤ x.1 := by
  simp [lexGeB] at h
  omega

/-- `selectBest` returns a successful member of maximal confidence, and
`none` exactly when no result succeeded. -/
theorem selectBest_spec (results : List ModelResult) :
    (∀ b, selectBest results = some b →
       b.success = true ∧ b ∈ results ∧
       ∀ r ∈ results, r.success = true → r.confidence.getD 0 ≤ b.confidence.getD 0) ∧
    (selectBest results = none → ∀ r ∈ results, r.success = false) := by
  constructor
  · intro b hb
    have hmax := @sortDescBy_head_max ModelResult (fun r => (r.confidence.getD 0, 0))
      (results.filter (·.success)) b hb
    have hmem := List.mem_filter.mp hmax.1
    refine ⟨by simpa using hmem.2, hmem.1, ?_⟩
    intro r hr hrs
    have : r ∈ results.filter (·.success) := List.mem_filter.mpr ⟨hr, by simpa using hrs⟩
    exact lexGeB_fst (hmax.2 r this)
  · intro hnone r hr
    have : sortDescBy (fun r : ModelResult => (r.confidence.getD 0, 0))
        (results.filter (·.success)) = [] := by
      cases hs : sortDescBy (fun r : ModelResult => (r.confidence.getD 0, 0))
          (results.filter (·.success)) with
      | nil => rfl
      | cons x xs => rw [selectBest, hs] at hnone; simp at hnone
    have hfil : results.filter (·.success) = [] := sortDescBy_eq_nil.mp this
    by_contra hcon
    have hs : r.success = true := by
      cases hrs : r.success
      · exact absurd hrs hcon
      · rfl
    have : r ∈ results.filter (·.success) := List.mem_filter.mpr ⟨hr, by simpa using hs⟩
    rw [hfil] at this
    simp at this

/-- C1: with a normalized answer supported by at least 2 of the 3 workers,
`callGeminiEnsemble` returns that answer immediately with the (rounded)
average of the supporting workers' confidences, method `"unanimous"` on 3/3
support and `"majority"` on 2/3, and the judge is not invoked (judge-call
count 0). -/
theorem voting_majority_top_answer (r₁ r₂ r₃ judge : ModelResult)
    (opts : List QuestionOption) (a : Str)
    (hcount : 2 ≤ countVotesFor r₁ r₂ r₃ opts a) :
    callGeminiEnsemble r₁ r₂ r₃ judge opts =
      (.ok ⟨a, jsRound (sumConfFor r₁ r₂ r₃ opts a) (countVotesFor r₁ r₂ r₃ opts a),
            if countVotesFor r₁ r₂ r₃ opts a = 3 then "unanimous" else "majority"⟩, 0) := by
  have hpos : 0 < (mkVotes [r₁, r₂, r₃] opts).countP (fun u => decide (u.ans = a)) := by
    have := hcount
    unfold countVotesFor at this
    omega
  obtain ⟨E, hE, hEa⟩ := tally_covers hpos
  have hEmem : toSortedVote E ∈ sortedVotesOf r₁ r₂ r₃ opts :=
    mem_sortDescBy.mpr (List.mem_map_of_mem _ hE)
  cases hs : sortedVotesOf r₁ r₂ r₃ opts with
  | nil => rw [hs] at hEmem; simp at hEmem
  | cons h t =>
    have hmax := @sortDescBy_head_max SortedVote voteKey
      ((tallyVotes (mkVotes [r₁, r₂, r₃] opts)).map toSortedVote) h
      (by rw [show sortDescBy voteKey ((tallyVotes (mkVotes [r₁, r₂, r₃] opts)).map toSortedVote) = h :: t from hs]; rfl)
    obtain ⟨E', hE', hmapE'⟩ := List.mem_map.mp hmax.1
    have specE := tally_spec E hE
    have specE' := tally_spec E' hE'
    have hEcount : E.count = countVotesFor r₁ r₂ r₃ opts a := by
      rw [specE.1, hEa]; rfl
    have hkeyE := hmax.2 (toSortedVote E)
      (List.mem_map_of_mem _ hE)
    have hhc : E.count ≤ h.count := by
      simpa [voteKey, toSortedVote] using lexGeB_fst hkeyE
    have hcount_h : h.count = (mkVotes [r₁, r₂, r₃] opts).countP
        (fun u => decide (u.ans = E'.answer)) := by
      rw [← hmapE']
      exact specE'.1
    have hlen : (mkVotes [r₁, r₂, r₃] opts).length ≤ 3 := by
      unfold mkVotes
      exact le_trans (List.length_filterMap_le _ _) (by simp)
    have hEansa : E'.answer = a := by
      by_contra hne
      have hdis := @countP_disjoint Vote (mkVotes [r₁, r₂, r₃] opts)
        (fun u => decide (u.ans = a)) (fun u => decide (u.ans = E'.answer))
        (by intro x _ hx
            simp only [decide_eq_true_eq] at hx
            exact hne (hx.2.symm.trans hx.1))
      have h2a : 2 ≤ (mkVotes [r₁, r₂, r₃] opts).countP (fun u => decide (u.ans = a)) := hcount
      have h2b : 2 ≤ (mkVotes [r₁, r₂, r₃] opts).countP
          (fun u => decide (u.ans = E'.answer)) := by
        rw [← hcount_h]
        calc 2 ≤ E.count := by rw [hEcount]; exact hcount
          _ ≤ h.count := hhc
      omega
    have hEE' : h.answer = a ∧ h.count = countVotesFor r₁ r₂ r₃ opts a ∧
        h.avgConfidence = jsRound (sumConfFor r₁ r₂ r₃ opts a) (countVotesFor r₁ r₂ r₃ opts a) := by
      refine ⟨?_, ?_, ?_⟩
      · rw [← hmapE']; exact hEansa
      · rw [hcount_h, hEansa]; rfl
      · rw [← hmapE']
        show jsRound E'.total E'.count = _
        rw [specE'.2.1, specE'.1, hEansa]
        rfl
    have h2h : 2 ≤ h.count := by
      calc 2 ≤ E.count := by rw [hEcount]; exact hcount
        _ ≤ h.count := hhc
    unfold callGeminiEnsemble
    rw [hs]
    simp only [List.head?]
    rw [if_pos h2h, hEE'.1, hEE'.2.1, hEE'.2.2]

/-- C2: with no normalized answer reaching 2 supporting workers, the judge is
invoked exactly once on the same prompt; a successful judge is authoritative
(method `"judge"`); a failed judge falls back to the successful worker of
highest confidence (method `"fallback_worker"`). -/
theorem voting_no_majority_judge (r₁ r₂ r₃ judge : ModelResult)
    (opts : List QuestionOption)
    (hno : ∀ a, countVotesFor r₁ r₂ r₃ opts a ≤ 1) :
    (callGeminiEnsemble r₁ r₂ r₃ judge opts).2 = 1 ∧
    (judge.success = true →
      (callGeminiEnsemble r₁ r₂ r₃ judge opts).1 =
        .ok ⟨judge.answer.getD [], judge.confidence.getD 0, "judge"⟩) ∧
    (judge.success = false →
      ((∃ r ∈ [r₁, r₂, r₃], r.success = true) → (selectBest [r₁, r₂, r₃]).isSome) ∧
      ∀ b, selectBest [r₁, r₂, r₃] = some b →
        b.success = true ∧
        (∀ r ∈ [r₁, r₂, r₃], r.success = true →
          r.confidence.getD 0 ≤ b.confidence.getD 0) ∧
        (callGeminiEnsemble r₁ r₂ r₃ judge opts).1 =
          .ok ⟨b.answer.getD [], b.confidence.getD 0, "fallback_worker"⟩) := by
  have hbranch : callGeminiEnsemble r₁ r₂ r₃ judge opts = judgeBranch [r₁, r₂, r₃] judge := by
    unfold callGeminiEnsemble
    cases hs : sortedVotesOf r₁ r₂ r₃ opts with
    | nil => rfl
    | cons h t =>
      have hmax := @sortDescBy_head_max SortedVote voteKey
        ((tallyVotes (mkVotes [r₁, r₂, r₃] opts)).map toSortedVote) h
        (by rw [show sortDescBy voteKey ((tallyVotes (mkVotes [r₁, r₂, r₃] opts)).map toSortedVote) = h :: t from hs]; rfl)
      obtain ⟨E', hE', hmapE'⟩ := List.mem_map.mp hmax.1
      have : h.count ≤ 1 := by
        have hsp := (tally_spec E' hE').1
        have := hno E'.answer
        unfold countVotesFor at this
        rw [← hmapE']
        show E'.count ≤ 1
        omega
      simp only [List.head?]
      rw [if_neg (by omega)]
  refine ⟨?_, ?_, ?_⟩
  · rw [hbranch]
    unfold judgeBranch
    split
    · rfl
    · cases hsel : selectBest [r₁, r₂, r₃] <;> rfl
  · intro hj
    rw [hbranch]
    unfold judgeBranch
    rw [if_pos hj]
  · intro hj
    constructor
    · intro ⟨r, hr, hrs⟩
      cases hsel : selectBest [r₁, r₂, r₃] with
      | some b => rfl
      | none =>
        have := (selectBest_spec [r₁, r₂, r₃]).2 hsel r hr
        rw [hrs] at this
        cases this
    · intro b hb
      have hspec := (selectBest_spec [r₁, r₂, r₃]).1 b hb
      refine ⟨hspec.1, hspec.2.2, ?_⟩
      rw [hbranch]
      unfold judgeBranch
      rw [if_neg (by simp [hj]), hb]

end ChessEnsemble

namespace ChessEnsemble

/-- Votes with pairwise-distinct answers support every answer at most once. -/
theorem countP_le_one_of_nodup {l : List Vote} (h : (l.map (·.ans)).Nodup) (a : Str) :
    l.countP (fun u => decide (u.ans = a)) ≤ 1 := by
  induction l with
  | nil => simp
  | cons v vs ih =>
    simp only [List.map_cons, List.nodup_cons] at h
    rw [List.countP_cons]
    by_cases hv : v.ans = a
    · have hzero : vs.countP (fun u => decide (u.ans = a)) = 0 := by
        rw [List.countP_eq_zero]
        intro u hu
        simp only [decide_eq_true_eq]
        intro hua
        apply h.1
        rw [hv, ← hua]
        exact List.mem_map_of_mem _ hu
      simp [hv, hzero]
    · have := ih h.2
      simp [hv]
      omega

/-- C1: for every voting round in which some normalized answer is supported by
at least 2 of the 3 workers, `vote` returns that top-voted answer immediately
(the judge-call count is 0) with confidence the rounded average of the
supporting workers' confidences and method `"unanimous"` (3/3) or
`"majority"` (2/3); in particular A(90), A(80), B(70) yields A, 85,
`"majority"`. -/
theorem claim_majority_vote (r₁ r₂ r₃ judge : ModelResult)
    (opts : List QuestionOption) (a : Str)
    (hcount : 2 ≤ countVotesFor r₁ r₂ r₃ opts a) :
    callGeminiEnsemble r₁ r₂ r₃ judge opts =
      (.ok ⟨a, jsRound (sumConfFor r₁ r₂ r₃ opts a) (countVotesFor r₁ r₂ r₃ opts a),
            if countVotesFor r₁ r₂ r₃ opts a = 3 then "unanimous" else "majority"⟩, 0) :=
  voting_majority_top_answer r₁ r₂ r₃ judge opts a hcount

/-- C1 witness: A(90), A(80), B(70) produce answer A, confidence 85, method
`"majority"`, no judge invocation, by the majority theorem. -/
theorem claim_majority_vote_witness :
    2 ≤ countVotesFor
        { success := true, answer := some ['A'], confidence := some 90, model := "w1" }
        { success := true, answer := some ['A'], confidence := some 80, model := "w2" }
        { success := true, answer := some ['B'], confidence := some 70, model := "w3" }
        [] ['A'] ∧
    callGeminiEnsemble
        { success := true, answer := some ['A'], confidence := some 90, model := "w1" }
        { success := true, answer := some ['A'], confidence := some 80, model := "w2" }
        { success := true, answer := some ['B'], confidence := some 70, model := "w3" }
        { success := true, answer := some ['D'], confidence := some 95, model := "judge" }
        [] = (.ok ⟨['A'], 85, "majority"⟩, 0) :=
  ⟨by decide,
   (claim_majority_vote
      { success := true, answer := some ['A'], confidence := some 90, model := "w1" }
      { success := true, answer := some ['A'], confidence := some 80, model := "w2" }
      { success := true, answer := some ['B'], confidence := some 70, model := "w3" }
      { success := true, answer := some ['D'], confidence := some 95, model := "judge" }
      [] ['A'] (by decide)).trans (by decide)⟩

/-- C2: with no 2-way agreement the Voting Engine consults the judge exactly
once (judge-call count 1); a successful judge's answer and confidence are
returned with method `"judge"`; otherwise the successful worker of highest
confidence is returned with method `"fallback_worker"`. -/
theorem claim_judge_tiebreak (r₁ r₂ r₃ judge : ModelResult)
    (opts : List QuestionOption)
    (hno : ∀ a, countVotesFor r₁ r₂ r₃ opts a ≤ 1) :
    (callGeminiEnsemble r₁ r₂ r₃ judge opts).2 = 1 ∧
    (judge.success = true →
      (callGeminiEnsemble r₁ r₂ r₃ judge opts).1 =
        .ok ⟨judge.answer.getD [], judge.confidence.getD 0, "judge"⟩) ∧
    (judge.success = false →
      ((∃ r ∈ [r₁, r₂, r₃], r.success = true) → (selectBest [r₁, r₂, r₃]).isSome) ∧
      ∀ b, selectBest [r₁, r₂, r₃] = some b →
        b.success = true ∧
        (∀ r ∈ [r₁, r₂, r₃], r.success = true →
          r.confidence.getD 0 ≤ b.confidence.getD 0) ∧
        (callGeminiEnsemble r₁ r₂ r₃ judge opts).1 =
          .ok ⟨b.answer.getD [], b.confidence.getD 0, "fallback_worker"⟩) :=
  voting_no_majority_judge r₁ r₂ r₃ judge opts hno

/-- C2 witness: workers A, B, C disagree; the judge D(95%) is invoked once and
is authoritative. -/
theorem claim_judge_tiebreak_witness :
    (callGeminiEnsemble
        { success := true, answer := some ['A'], confidence := some 90, model := "w1" }
        { success := true, answer := some ['B'], confidence := some 80, model := "w2" }
        { success := true, answer := some ['C'], confidence := some 70, model := "w3" }
        { success := true, answer := some ['D'], confidence := some 95, model := "judge" }
        []).2 = 1 ∧
    (callGeminiEnsemble
        { success := true, answer := some ['A'], confidence := some 90, model := "w1" }
        { success := true, answer := some ['B'], confidence := some 80, model := "w2" }
        { success := true, answer := some ['C'], confidence := some 70, model := "w3" }
        { success := true, answer := some ['D'], confidence := some 95, model := "judge" }
        []).1 = .ok ⟨['D'], 95, "judge"⟩ := by
  have hno : ∀ a, countVotesFor
      { success := true, answer := some ['A'], confidence := some 90, model := "w1" }
      { success := true, answer := some ['B'], confidence := some 80, model := "w2" }
      { success := true, answer := some ['C'], confidence := some 70, model := "w3" }
      [] a ≤ 1 :=
    fun a => countP_le_one_of_nodup (by decide) a
  have h := claim_judge_tiebreak
    { success := true, answer := some ['A'], confidence := some 90, model := "w1" }
    { success := true, answer := some ['B'], confidence := some 80, model := "w2" }
    { success := true, answer := some ['C'], confidence := some 70, model := "w3" }
    { success := true, answer := some ['D'], confidence := some 95, model := "judge" }
    [] hno
  exact ⟨h.1, (h.2.1 rfl).trans (by decide)⟩

end ChessEnsemble

namespace ChessEnsemble

/-- C3 counterexample: on absent raw text (null, and likewise the empty
string, both falsy under `if (!rawText)`) the parser returns confidence 50,
not the claimed 0. -/
theorem claim_parser_total_failure_cex :
    parseAnswerWithConfidence none = ⟨[], 50⟩ ∧
    parseAnswerWithConfidence (some []) = ⟨[], 50⟩ ∧
    parseAnswerWithConfidence none ≠ ⟨[], 0⟩ :=
  ⟨rfl, rfl, by decide⟩

/-- C3 (amended): for present, non-empty raw text on which every resolution
step fails the parser returns the empty answer with confidence 0; absent
(null/empty) raw text instead returns the empty answer with confidence 50. -/
theorem claim_parser_total_failure (raw : Str) (hraw : raw ≠ [])
    (h1 : parseStepJsonWhole (jsTrim raw) = none)
    (h2 : parseStepJsonSub (jsTrim raw) = none)
    (h3 : parseStepTrueFalse (jsTrim raw) = none)
    (h4 : parseStepLetters (jsTrim raw) = none)
    (h5 : parseStepLabeled (jsTrim raw) = none)
    (h6 : parseStepShort (jsTrim raw) = none) :
    parseAnswerWithConfidence (some raw) = ⟨[], 0⟩ ∧
    parseAnswerWithConfidence none = ⟨[], 50⟩ := by
  constructor
  · simp only [parseAnswerWithConfidence]
    rw [if_neg hraw]
    unfold parseSteps
    rw [h1, h2, h3, h4, h5, h6]
    rfl
  · rfl

/-- C3 witness: `"blah blah unrelated text"` fails every step and parses to
the empty answer with confidence 0. -/
theorem claim_parser_total_failure_witness :
    parseAnswerWithConfidence (some "blah blah unrelated text".data) = ⟨[], 0⟩ :=
  (claim_parser_total_failure "blah blah unrelated text".data (by decide)
    rfl rfl rfl rfl rfl rfl).1

/-- C9 counterexample: the fenced-JSON input `{"answer":"B","confidence":0}`
carries a present, valid confidence of 0, yet the parser substitutes the
default 50 (`parseInt(...) || 50` treats 0 as falsy), not the clamped 0 the
claim implies. -/
theorem claim_parser_json_clamp_cex :
    parseAnswerWithConfidence (some "\x7b\"answer\":\"B\",\"confidence\":0\x7d".data) = ⟨['B'], 50⟩ ∧
    parseAnswerWithConfidence (some "\x7b\"answer\":\"B\",\"confidence\":0\x7d".data) ≠ ⟨['B'], 0⟩ :=
  ⟨rfl, by decide⟩

/-- C9 (amended): when the fence-stripped trimmed text parses as JSON, the
parser returns the upper-cased coerced `answer` field and the confidence
`parseInt(confidence)` clamped to [0, 100], except that a missing, invalid
*or zero* parsed confidence yields the default 50; the result never exceeds
100. -/
theorem claim_parser_json_clamp (raw : Str) (fields : List (Str × JVal))
    (hj : jsonParse (jsTrim (stripFences (jsTrim raw))) = some (.jobj fields)) :
    parseAnswerWithConfidence (some raw) =
      ⟨strUpper (jsAnswerStr (jsField (.jobj fields) "answer".data)),
       jsConfidenceOf (jsField (.jobj fields) "confidence".data)⟩ ∧
    (∀ n : Int, jsParseIntField (jsField (.jobj fields) "confidence".data) = some n → n ≠ 0 →
       (jsConfidenceOf (jsField (.jobj fields) "confidence".data) : Int) = min 100 (max 0 n)) ∧
    ((jsParseIntField (jsField (.jobj fields) "confidence".data) = none ∨
      jsParseIntField (jsField (.jobj fields) "confidence".data) = some 0) →
       jsConfidenceOf (jsField (.jobj fields) "confidence".data) = 50) ∧
    jsConfidenceOf (jsField (.jobj fields) "confidence".data) ≤ 100 := by
  have hraw : raw ≠ [] := by
    intro hr
    subst hr
    rw [show jsTrim (stripFences (jsTrim ([] : Str))) = [] from rfl] at hj
    rw [show jsonParse ([] : Str) = none from rfl] at hj
    exact Option.noConfusion hj
  refine ⟨?_, ?_, ?_, ?_⟩
  · simp only [parseAnswerWithConfidence]
    rw [if_neg hraw]
    unfold parseSteps
    have hstep : parseStepJsonWhole (jsTrim raw) =
        some ⟨strUpper (jsAnswerStr (jsField (.jobj fields) "answer".data)),
              jsConfidenceOf (jsField (.jobj fields) "confidence".data)⟩ := by
      simp only [parseStepJsonWhole]
      rw [hj]
    rw [hstep]
    rfl
  · intro n hn hn0
    unfold jsConfidenceOf
    rw [hn]
    show ((min 100 (max 0 (if n = 0 then (50 : Int) else n))).toNat : Int) = min 100 (max 0 n)
    rw [if_neg hn0]
    rw [Int.toNat_of_nonneg (le_min (by norm_num) (le_max_left 0 n))]
  · intro hcase
    rcases hcase with hc | hc <;> unfold jsConfidenceOf <;> rw [hc] <;> rfl
  · unfold jsConfidenceOf
    cases jsParseIntField (jsField (.jobj fields) "confidence".data) with
    | none => decide
    | some n =>
      show (min 100 (max 0 (if n = 0 then (50 : Int) else n))).toNat ≤ 100
      exact Int.toNat_le.mpr (le_trans (min_le_left _ _) (by norm_num))

/-- C9 witness: the fenced input ```` ```json {"answer":"B","confidence":120}``` ````
parses to answer `B` with confidence clamped to 100, by the JSON-branch
theorem. -/
theorem claim_parser_json_clamp_witness :
    parseAnswerWithConfidence (some "```json\n\x7b\"answer\":\"B\",\"confidence\":120\x7d\n```".data) =
      ⟨['B'], 100⟩ :=
  ((claim_parser_json_clamp "```json\n\x7b\"answer\":\"B\",\"confidence\":120\x7d\n```".data
      [("answer".data, .jstr ['B']), ("confidence".data, .jnum 120)] rfl).1).trans (by decide)

end ChessEnsemble

namespace ChessEnsemble

/-- The retry loop under all-failing attempts: from `attempt ≤ retries` on,
the result is the classified last-attempt failure and the await list holds one
linear (or doubled) backoff per non-final attempt. -/
theorem csmGo_allfail (env : Nat → AttemptOutcome) (model : String) (retries : Nat) :
    ∀ fuel attempt, attempt + fuel = retries + 1 → 1 ≤ attempt → attempt ≤ retries →
    (∀ j, attempt ≤ j → j ≤ retries →
       attemptEval model (env j) = .error (attemptErr model (env j))) →
    callSingleModelGo env model retries attempt fuel =
      (lastAttemptFailure model (attemptErr model (env retries)),
       (List.range' attempt (retries - attempt)).map
         (fun j => (if isOverloadMsg (attemptErr model (env j)) then 2000 else 1000) * j)) := by
  intro fuel
  induction fuel with
  | zero => intro attempt h1 _ h3 _; omega
  | succ fuel ih =>
    intro attempt h1 h2 h3 hfail
    have heval := hfail attempt (le_refl _) h3
    unfold callSingleModelGo
    simp only [heval]
    by_cases hlast : attempt = retries
    · subst hlast
      rw [if_pos rfl]
      simp [Nat.sub_self]
    · rw [if_neg hlast]
      have hrec := ih (attempt + 1) (by omega) (by omega) (by omega)
        (fun j hj1 hj2 => hfail j (by omega) hj2)
      simp only [hrec]
      have hsub : retries - attempt = (retries - (attempt + 1)) + 1 := by omega
      rw [hsub, List.range'_succ]
      simp

/-- C8: when every attempt of a Model Invoker call fails, each failed
non-final attempt `j` waits `j × 1000 ms`, doubled to `j × 2000 ms` when the
failure message is classified as server overload (`503`/`429`/`Overload`), and
after exhausting the attempts the invoker returns `success: false` with the
classified human-readable error — it does not throw. -/
theorem claim_invoker_backoff (env : Nat → AttemptOutcome) (model : String) (retries : Nat)
    (hret : 1 ≤ retries)
    (hfail : ∀ j, 1 ≤ j → j ≤ retries →
       attemptEval model (env j) = .error (attemptErr model (env j))) :
    callSingleModel env model retries =
      (lastAttemptFailure model (attemptErr model (env retries)),
       (List.range' 1 (retries - 1)).map
         (fun j => (if isOverloadMsg (attemptErr model (env j)) then 2000 else 1000) * j)) ∧
    (callSingleModel env model retries).1.success = false ∧
    (callSingleModel env model retries).1.error =
      some (if isOverloadMsg (attemptErr model (env retries))
            then "Server Overload (Max Retries)".data
            else formatError (attemptErr model (env retries))) := by
  have h := csmGo_allfail env model retries retries 1 (by omega) (le_refl 1) hret hfail
  have hc : callSingleModel env model retries =
      (lastAttemptFailure model (attemptErr model (env retries)),
       (List.range' 1 (retries - 1)).map
         (fun j => (if isOverloadMsg (attemptErr model (env j)) then 2000 else 1000) * j)) := h
  refine ⟨hc, ?_, ?_⟩ <;> rw [hc] <;> rfl

/-- C8 witness: three attempts all throwing an HTTP 503 message wait 2000 ms
then 4000 ms (doubled linear backoff) and end in `success: false` with the
overload-classified error. -/
theorem claim_invoker_backoff_witness :
    callSingleModel (fun _ => AttemptOutcome.throws "HTTP 503 service unavailable".data)
        "gemini-2.5-pro" 3 =
      ({ success := false, model := "gemini-2.5-pro",
         error := some "Server Overload (Max Retries)".data }, [2000, 4000]) :=
  ((claim_invoker_backoff (fun _ => AttemptOutcome.throws "HTTP 503 service unavailable".data)
      "gemini-2.5-pro" 3 (by omega) (fun j _ _ => rfl)).1).trans (by decide)

/-- With at least two successful results the weighted variant returns the
record built over `cwReliable` of the successes. -/
theorem cw_modelAnswers_of_two (results : List ModelResult)
    (h2 : 2 ≤ (results.filter (·.success)).length) :
    ∃ out, _confidenceWeightedVote results = .ok out ∧
      out.modelAnswers = (cwReliable (results.filter (·.success))).map
        (fun r => (r.model ++ (if r.unreliable then " ⚠️" else ""),
                   r.answer.getD [], r.confidence)) := by
  cases hsucc : results.filter (·.success) with
  | nil => rw [hsucc] at h2; simp at h2
  | cons x t =>
    cases t with
    | nil => rw [hsucc] at h2; simp at h2
    | cons y t2 =>
      refine ⟨cwMain (x :: y :: t2), ?_, ?_⟩
      · unfold _confidenceWeightedVote
        rw [hsucc]
      · rfl

/-- C10: in the confidence-weighted variant, every successful result whose
answer normalizes to 4 or more distinct letters enters consensus tallying
with its confidence capped at `min(confidence, 40) ≤ 40`, and with ≥ 2
successes the capped value is what `_confidenceWeightedVote` reports for that
worker. -/
theorem claim_cw_unreliable_cap (results : List ModelResult) (i : Nat)
    (hi : i < (results.filter (·.success)).length)
    (h4 : 4 ≤ (normalizeAnswer ((results.filter (·.success)).get ⟨i, hi⟩).answer).length) :
    (cwReliable (results.filter (·.success)))[i]? =
      some ⟨((results.filter (·.success)).get ⟨i, hi⟩).answer,
            min (((results.filter (·.success)).get ⟨i, hi⟩).confidence.getD 0) 40,
            ((results.filter (·.success)).get ⟨i, hi⟩).model, true⟩ ∧
    min (((results.filter (·.success)).get ⟨i, hi⟩).confidence.getD 0) 40 ≤ 40 ∧
    (2 ≤ (results.filter (·.success)).length →
      ∃ out, _confidenceWeightedVote results = .ok out ∧
        out.modelAnswers[i]? =
          some (((results.filter (·.success)).get ⟨i, hi⟩).model ++ " ⚠️",
                ((results.filter (·.success)).get ⟨i, hi⟩).answer.getD [],
                min (((results.filter (·.success)).get ⟨i, hi⟩).confidence.getD 0) 40)) := by
  have hadj : cwAdjust ((results.filter (·.success)).get ⟨i, hi⟩) =
      ⟨((results.filter (·.success)).get ⟨i, hi⟩).answer,
       min (((results.filter (·.success)).get ⟨i, hi⟩).confidence.getD 0) 40,
       ((results.filter (·.success)).get ⟨i, hi⟩).model, true⟩ := by
    unfold cwAdjust
    rw [if_pos h4]
  have hidx : (cwReliable (results.filter (·.success)))[i]? =
      some (cwAdjust ((results.filter (·.success)).get ⟨i, hi⟩)) := by
    unfold cwReliable
    rw [List.getElem?_map]
    rw [List.getElem?_eq_getElem hi]
    rfl
  refine ⟨by rw [hidx, hadj], Nat.min_le_right _ _, ?_⟩
  intro h2
  obtain ⟨out, hout, hma⟩ := cw_modelAnswers_of_two results h2
  refine ⟨out, hout, ?_⟩
  rw [hma, List.getElem?_map, hidx, hadj]
  rfl

/-- C10 witness: a result proposing five distinct letters with reported
confidence 95 is capped at 40 before tallying. -/
theorem claim_cw_unreliable_cap_witness :
    (cwReliable ([({ success := true, answer := some "A, B, C, D, E".data,
                     confidence := some 95, model := "w1" } : ModelResult),
                  { success := true, answer := some ['A'],
                    confidence := some 80, model := "w2" }].filter (·.success)))[0]? =
      some ⟨some "A, B, C, D, E".data, 40, "w1", true⟩ :=
  ((claim_cw_unreliable_cap
      [{ success := true, answer := some "A, B, C, D, E".data,
         confidence := some 95, model := "w1" },
       { success := true, answer := some ['A'], confidence := some 80, model := "w2" }]
      0 (by decide) (by decide)).1).trans (by decide)

end ChessEnsemble

namespace ChessEnsemble

theorem inv_init : StateInv initState := by
  constructor <;> intros <;> simp_all [initState]

theorem vacuum_cache_some {s : ServerState} {now : Nat} {k : String} {e : CacheEntry}
    (h : (vacuumState s now).recentAnswers k = some e) :
    s.recentAnswers k = some e ∧ now - e.ts ≤ TTL_MS := by
  simp only [vacuumState] at h
  cases ho : s.recentAnswers k with
  | none => rw [ho] at h; exact Option.noConfusion h
  | some e' =>
    simp only [ho] at h
    by_cases ht : TTL_MS < now - e'.ts
    · rw [if_pos ht] at h; exact Option.noConfusion h
    · rw [if_neg ht] at h
      cases h
      exact ⟨rfl, by omega⟩

theorem vacuum_cache_none {s : ServerState} {now : Nat} {k : String}
    (h : s.recentAnswers k = none) : (vacuumState s now).recentAnswers k = none := by
  simp only [vacuumState]
  rw [h]

theorem inv_vacuum {s : ServerState} (h : StateInv s) (now : Nat) :
    StateInv (vacuumState s now) := by
  constructor
  · intro k hk
    rw [Option.isSome_iff_exists] at hk
    obtain ⟨e, he⟩ := hk
    exact h.excl k (by rw [(vacuum_cache_some he).1]; rfl)
  · exact h.queued_inflight
  · exact h.proc_inflight
  · exact h.queue_nodup
  · exact h.proc_queue

theorem inv_admitMiss {s1 : ServerState} (h : StateInv s1) {k : String}
    (hmiss : s1.recentAnswers k = none) (raw : Str) (now : Nat) :
    StateInv (admitMiss s1 k raw now).2 := by
  unfold admitMiss
  cases hin : s1.inflight k with
  | some p => exact h
  | none =>
    constructor
    · intro k' hk'
      simp only [setMap]
      by_cases hkk : k' = k
      · subst hkk
        rw [hmiss] at hk'
        simp at hk'
      · rw [if_neg hkk]
        exact h.excl k' hk'
    · intro e he
      simp only [List.mem_append, List.mem_singleton] at he
      simp only [setMap]
      rcases he with he | rfl
      · by_cases hkk : e.key = k
        · rw [if_pos hkk]; rfl
        · rw [if_neg hkk]; exact h.queued_inflight e he
      · simp
    · intro e he
      simp only [setMap]
      by_cases hkk : e.key = k
      · rw [if_pos hkk]; rfl
      · rw [if_neg hkk]; exact h.proc_inflight e he
    · simp only [List.map_append, List.map_cons, List.map_nil]
      rw [List.nodup_append]
      refine ⟨h.queue_nodup, List.nodup_singleton _, ?_⟩
      intro a ha hb
      simp only [List.mem_singleton] at hb
      subst hb
      simp only [List.mem_map] at ha
      obtain ⟨e, he, hek⟩ := ha
      have := h.queued_inflight e he
      rw [hek, hin] at this
      simp at this
    · intro e e' hp he'
      simp only [List.mem_append, List.mem_singleton] at he'
      rcases he' with he' | rfl
      · exact h.proc_queue e e' hp he'
      · show k ≠ e.key
        intro hkk
        have := h.proc_inflight e hp
        rw [← hkk, hin] at this
        simp at this

theorem inv_admit {s : ServerState} (h : StateInv s) (k : String) (raw : Str) (now : Nat) :
    StateInv (admitRequest s k raw now).2 := by
  have hv := inv_vacuum h now
  unfold admitRequest
  cases hc : (vacuumState s now).recentAnswers k with
  | none =>
    simp only [hc]
    exact inv_admitMiss hv hc raw now
  | some e =>
    simp only [hc]
    by_cases ht : now - e.ts ≤ TTL_MS
    · rw [if_pos ht]
      exact hv
    · exact absurd (vacuum_cache_some hc).2 ht

theorem inv_start {s : ServerState} (h : StateInv s) : StateInv (startProcess s) := by
  unfold startProcess
  cases hp : s.processing with
  | some e => exact h
  | none =>
    cases hq : s.queue with
    | nil => exact h
    | cons e rest =>
      constructor
      · exact h.excl
      · intro e' he'
        exact h.queued_inflight e' (by rw [hq]; exact List.mem_cons_of_mem _ he')
      · intro e' he'
        cases he'
        exact h.queued_inflight e (by rw [hq]; exact List.mem_cons_self _ _)
      · have := h.queue_nodup
        rw [hq] at this
        exact (List.nodup_cons.mp this).2
      · intro e₀ e' hp0 he'
        cases hp0
        have := h.queue_nodup
        rw [hq, List.map_cons, List.nodup_cons] at this
        intro hkk
        exact this.1 (hkk ▸ List.mem_map_of_mem _ he')

theorem inv_finish {s : ServerState} (h : StateInv s) (o : Settle) (now : Nat) :
    StateInv (finishProcess s o now).1 := by
  unfold finishProcess
  cases hp : s.processing with
  | none => exact h
  | some e =>
    have hq : ∀ e' ∈ s.queue, e'.key ≠ e.key := fun e' => h.proc_queue e e' hp
    cases o with
    | success ans conf =>
      constructor
      · intro k hk
        simp only [setMap]
        by_cases hkk : k = e.key
        · rw [if_pos hkk]
        · rw [if_neg hkk]
          simp only [setMap] at hk
          rw [if_neg hkk] at hk
          exact h.excl k hk
      · intro e' he'
        simp only [setMap]
        rw [if_neg (hq e' he')]
        exact h.queued_inflight e' he'
      · intro e' he'
        exact Option.noConfusion he'
      · exact h.queue_nodup
      · intro e₀ e' hp0
        exact absurd hp0 (by simp)
    | failure err =>
      constructor
      · intro k hk
        simp only [setMap]
        by_cases hkk : k = e.key
        · rw [if_pos hkk]
        · rw [if_neg hkk]
          exact h.excl k hk
      · intro e' he'
        simp only [setMap]
        rw [if_neg (hq e' he')]
        exact h.queued_inflight e' he'
      · intro e' he'
        exact Option.noConfusion he'
      · exact h.queue_nodup
      · intro e₀ e' hp0
        exact absurd hp0 (by simp)

theorem inv_step {s s' : ServerState} (h : StateInv s) (hs : SStep s s') : StateInv s' := by
  cases hs with
  | admission k raw now => exact inv_admit h k raw now
  | dequeue => exact inv_start h
  | completion o now => exact inv_finish h o now

/-- Every reachable server state satisfies the structural invariants. -/
theorem inv_reachable {s : ServerState} (h : Reachable s) : StateInv s := by
  induction h with
  | refl => exact inv_init
  | tail _ hstep ih => exact inv_step ih hstep

end ChessEnsemble

namespace ChessEnsemble

/-- C6: in every reachable state, a Question Identity is never simultaneously
cached and in flight — the Cache Entry and the In-flight Handle are mutually
exclusive at every step of the admission path and the worker loop (per-key
uniqueness of entries and handles is structural to the `Map` embedding). -/
theorem claim_cache_inflight_exclusive (s : ServerState) (hr : Reachable s) (k : String) :
    ¬((s.recentAnswers k).isSome ∧ (s.inflight k).isSome) := by
  intro ⟨hc, hi⟩
  rw [(inv_reachable hr).excl k hc] at hi
  simp at hi

/-- C6 witness: after an admission, a dequeue and a successful completion of
key `"q"`, the key is cached and not in flight — the exclusion theorem
applies to this reachable state. -/
theorem claim_cache_inflight_exclusive_witness :
    ¬((((finishProcess (startProcess (admitRequest initState "q" [] 0).2)
          (.success ['A'] 90) 10).1).recentAnswers "q").isSome ∧
      (((finishProcess (startProcess (admitRequest initState "q" [] 0).2)
          (.success ['A'] 90) 10).1).inflight "q").isSome) :=
  claim_cache_inflight_exclusive _
    (Relation.ReflTransGen.tail
      (Relation.ReflTransGen.tail
        (Relation.ReflTransGen.tail Relation.ReflTransGen.refl
          (SStep.admission initState "q" [] 0))
        (SStep.dequeue _))
      (SStep.completion _ (.success ['A'] 90) 10))
    "q"

/-- C4: a cache entry of age within the TTL answers the request directly
(`cachedHit`) and changes neither the queue nor the in-flight map nor the
worker — zero additional model invocations; an entry older than the TTL is
removed by the opportunistic sweep and the same request is enqueued for fresh
resolution. -/
theorem claim_cache_ttl (s : ServerState) (hr : Reachable s) (k : String) (raw : Str)
    (now : Nat) (en : CacheEntry) (hc : s.recentAnswers k = some en) :
    (now - en.ts ≤ TTL_MS →
       (admitRequest s k raw now).1 = .cachedHit en.answer ∧
       (admitRequest s k raw now).2.queue = s.queue ∧
       (admitRequest s k raw now).2.inflight = s.inflight ∧
       (admitRequest s k raw now).2.processing = s.processing) ∧
    (TTL_MS < now - en.ts →
       (vacuumState s now).recentAnswers k = none ∧
       (admitRequest s k raw now).1 = .enqueued s.nextPid) := by
  constructor
  · intro hfresh
    have hvc : (vacuumState s now).recentAnswers k = some en := by
      simp only [vacuumState, hc]
      rw [if_neg (Nat.not_lt.mpr hfresh)]
    unfold admitRequest
    simp only [hvc]
    rw [if_pos hfresh]
    exact ⟨rfl, rfl, rfl, rfl⟩
  · intro hstale
    have hvc : (vacuumState s now).recentAnswers k = none := by
      simp only [vacuumState, hc]
      rw [if_pos hstale]
    refine ⟨hvc, ?_⟩
    have hinf : s.inflight k = none := (inv_reachable hr).excl k (by rw [hc]; rfl)
    unfold admitRequest
    simp only [hvc]
    unfold admitMiss
    simp only [show (vacuumState s now).inflight k = none from hinf]
    rfl

/-- C4 witness: with `"q"` cached at time 10, a request at time 50 (age 40 ms
≤ TTL) is served from the cache, and a request at time 130010 (age 130000 ms
> TTL) finds the entry swept and is enqueued afresh. -/
theorem claim_cache_ttl_witness :
    (admitRequest ((finishProcess (startProcess (admitRequest initState "q" [] 0).2)
        (.success ['A'] 90) 10).1) "q" [] 50).1 = .cachedHit ['A'] ∧
    (admitRequest ((finishProcess (startProcess (admitRequest initState "q" [] 0).2)
        (.success ['A'] 90) 10).1) "q" [] 130010).1 =
      .enqueued ((finishProcess (startProcess (admitRequest initState "q" [] 0).2)
        (.success ['A'] 90) 10).1).nextPid := by
  have hreach : Reachable ((finishProcess (startProcess (admitRequest initState "q" [] 0).2)
      (.success ['A'] 90) 10).1) :=
    Relation.ReflTransGen.tail
      (Relation.ReflTransGen.tail
        (Relation.ReflTransGen.tail Relation.ReflTransGen.refl
          (SStep.admission initState "q" [] 0))
        (SStep.dequeue _))
      (SStep.completion _ (.success ['A'] 90) 10)
  have h₁ := claim_cache_ttl _ hreach "q" [] 50 ⟨['A'], 10⟩ rfl
  have h₂ := claim_cache_ttl _ hreach "q" [] 130010 ⟨['A'], 10⟩ rfl
  exact ⟨(h₁.1 (by decide)).1, (h₂.2 (by decide)).2⟩

/-- While a key is in flight (and not cached), every further admission for it
coalesces onto the same promise id and leaves the whole state untouched but
for the sweep. -/
theorem admitSeq_coalesce (k : String) (p : Nat) :
    ∀ (arr : List (Str × Nat)) (s' : ServerState),
      s'.recentAnswers k = none → s'.inflight k = some p →
      (∀ r ∈ (admitSeq s' k arr).1, r = .coalesced p) ∧
      (admitSeq s' k arr).2.recentAnswers k = none ∧
      (admitSeq s' k arr).2.inflight k = some p ∧
      (admitSeq s' k arr).2.queue = s'.queue ∧
      (admitSeq s' k arr).2.processing = s'.processing ∧
      (admitSeq s' k arr).2.nextPid = s'.nextPid := by
  intro arr
  induction arr with
  | nil =>
    intro s' hc hi
    exact ⟨by intro r hr; simp [admitSeq] at hr, hc, hi, rfl, rfl, rfl⟩
  | cons a rest ih =>
    intro s' hc hi
    obtain ⟨raw, now⟩ := a
    have hvc : (vacuumState s' now).recentAnswers k = none := vacuum_cache_none hc
    have hvi : (vacuumState s' now).inflight k = some p := hi
    have hadm : admitRequest s' k raw now = (.coalesced p, vacuumState s' now) := by
      unfold admitRequest
      simp only [hvc]
      unfold admitMiss
      simp only [hvi]
    have hrec := ih (vacuumState s' now) hvc hvi
    simp only [admitSeq, hadm]
    refine ⟨?_, hrec.2.1, hrec.2.2.1, hrec.2.2.2.1, hrec.2.2.2.2.1, hrec.2.2.2.2.2⟩
    intro r hr
    rcases List.mem_cons.mp hr with rfl | hr'
    · rfl
    · exact hrec.1 r hr'

/-- C5: a request admitted on a cache miss with nothing in flight is enqueued
once; every concurrent identical request arriving before it resolves awaits
the same promise id, no further queue entry is created (the key appears in
the queue exactly once) and the worker's current entry is untouched. -/
theorem claim_coalescing (s : ServerState) (hr : Reachable s) (k : String) (raw₀ : Str)
    (now₀ : Nat) (hc : s.recentAnswers k = none) (hi : s.inflight k = none)
    (arrivals : List (Str × Nat)) :
    (admitRequest s k raw₀ now₀).1 = .enqueued s.nextPid ∧
    (∀ r ∈ (admitSeq (admitRequest s k raw₀ now₀).2 k arrivals).1, r = .coalesced s.nextPid) ∧
    ((admitSeq (admitRequest s k raw₀ now₀).2 k arrivals).2.queue.map (·.key)).count k = 1 ∧
    (admitSeq (admitRequest s k raw₀ now₀).2 k arrivals).2.inflight k = some s.nextPid ∧
    (admitSeq (admitRequest s k raw₀ now₀).2 k arrivals).2.processing = s.processing ∧
    (∀ e, s.processing = some e → e.key ≠ k) := by
  have hinv := inv_reachable hr
  have hvc : (vacuumState s now₀).recentAnswers k = none := vacuum_cache_none hc
  have hadm : admitRequest s k raw₀ now₀ =
      (.enqueued s.nextPid,
       { vacuumState s now₀ with
           queue := s.queue ++ [⟨k, raw₀, s.nextPid, now₀⟩],
           inflight := setMap s.inflight k (some s.nextPid),
           nextPid := s.nextPid + 1 }) := by
    unfold admitRequest
    simp only [hvc]
    unfold admitMiss
    simp only [show (vacuumState s now₀).inflight k = none from hi]
    rfl
  have hknotin : k ∉ s.queue.map (·.key) := by
    intro hk
    obtain ⟨e, he, hek⟩ := List.mem_map.mp hk
    have := hinv.queued_inflight e he
    rw [hek, hi] at this
    simp at this
  have hs₁c : (admitRequest s k raw₀ now₀).2.recentAnswers k = none := by
    rw [hadm]
    exact hvc
  have hs₁i : (admitRequest s k raw₀ now₀).2.inflight k = some s.nextPid := by
    rw [hadm]
    simp [setMap]
  have hseq := admitSeq_coalesce k s.nextPid arrivals (admitRequest s k raw₀ now₀).2 hs₁c hs₁i
  refine ⟨by rw [hadm], hseq.1, ?_, hseq.2.2.1, ?_, ?_⟩
  · rw [hseq.2.2.2.1, hadm]
    show ((s.queue ++ [QueueEntry.mk k raw₀ s.nextPid now₀]).map (fun e => e.key)).count k = 1
    rw [List.map_append, List.count_append]
    rw [List.count_eq_zero.mpr hknotin]
    simp
  · rw [hseq.2.2.2.2.1, hadm]
    rfl
  · intro e hp hek
    have := hinv.proc_inflight e hp
    rw [hek, hi] at this
    simp at this

/-- C5 witness: from the initial state, the first request for `"q"` is
enqueued with promise id 0 and two concurrent identical requests leave exactly
one queue entry for `"q"` and the same in-flight handle 0. -/
theorem claim_coalescing_witness :
    (admitRequest initState "q" [] 0).1 = .enqueued 0 ∧
    ((admitSeq (admitRequest initState "q" [] 0).2 "q" [([], 1), ([], 2)]).2.queue.map
      (·.key)).count "q" = 1 ∧
    (admitSeq (admitRequest initState "q" [] 0).2 "q" [([], 1), ([], 2)]).2.inflight "q" = some 0 := by
  have h := claim_coalescing initState Relation.ReflTransGen.refl "q" [] 0 rfl rfl
    [([], 1), ([], 2)]
  exact ⟨h.1, h.2.2.1, h.2.2.2.1⟩

/-- C7: when the worker settles the current entry with a failure (in
particular the terminal all-models-failed error), the unique settlement
message rejects the entry's shared promise — every waiter on the key — with
that error; the key leaves the in-flight map on failure and on success alike;
the next identical request is enqueued afresh; and when all three workers and
the judge fail, the ensemble's outcome is exactly the single classified
`"All models failed including Judge"` error after one judge invocation. -/
theorem claim_allfailed_eviction (s : ServerState) (hr : Reachable s) (e : QueueEntry)
    (hp : s.processing = some e) (err : Str) (now : Nat) :
    (finishProcess s (.failure err) now).2 = some (e.pid, .failure err) ∧
    (finishProcess s (.failure err) now).1.inflight e.key = none ∧
    (∀ ans conf now', ((finishProcess s (.success ans conf) now').1.inflight e.key = none)) ∧
    (∀ raw now₂, (admitRequest (finishProcess s (.failure err) now).1 e.key raw now₂).1 =
        .enqueued (finishProcess s (.failure err) now).1.nextPid) ∧
    (∀ (w₁ w₂ w₃ j : ModelResult) (opts : List QuestionOption),
        w₁.success = false → w₂.success = false → w₃.success = false →
        j.success = false →
        callGeminiEnsemble w₁ w₂ w₃ j opts = (.error allModelsFailedMsg, 1)) := by
  have hinv := inv_reachable hr
  have hcnone : s.recentAnswers e.key = none := by
    cases hck : s.recentAnswers e.key with
    | none => rfl
    | some c =>
      have hsome := hinv.proc_inflight e hp
      rw [hinv.excl e.key (by rw [hck]; rfl)] at hsome
      simp at hsome
  refine ⟨?_, ?_, ?_, ?_, ?_⟩
  · unfold finishProcess
    simp only [hp]
  · unfold finishProcess
    simp only [hp]
    simp [setMap]
  · intro ans conf now'
    unfold finishProcess
    simp only [hp]
    simp [setMap]
  · intro raw now₂
    have hc' : (finishProcess s (.failure err) now).1.recentAnswers e.key = none := by
      unfold finishProcess
      simp only [hp]
      exact hcnone
    have hi' : (finishProcess s (.failure err) now).1.inflight e.key = none := by
      unfold finishProcess
      simp only [hp]
      simp [setMap]
    unfold admitRequest
    simp only [vacuum_cache_none hc']
    unfold admitMiss
    simp only [show (vacuumState (finishProcess s (.failure err) now).1 now₂).inflight e.key =
      none from hi']
    rfl
  · intro w₁ w₂ w₃ j opts h1 h2 h3 hj
    have hv : mkVotes [w₁, w₂, w₃] opts = [] := by
      simp [mkVotes, h1, h2, h3]
    have hsv : sortedVotesOf w₁ w₂ w₃ opts = [] := by
      simp [sortedVotesOf, hv, tallyVotes, sortDescBy]
    have hsel : selectBest [w₁, w₂, w₃] = none := by
      unfold selectBest
      rw [show ([w₁, w₂, w₃].filter (·.success)) = [] by simp [h1, h2, h3]]
      rfl
    unfold callGeminiEnsemble
    rw [hsv]
    show judgeBranch [w₁, w₂, w₃] j = _
    unfold judgeBranch
    rw [if_neg (by simp [hj]), hsel]

/-- C7 witness: with entry `"q"` (promise 0) being processed, an
all-models-failed completion rejects promise 0 with the error, evicts `"q"`
from in flight, a later identical request is enqueued afresh with promise 1,
and four failed models produce exactly the classified terminal error with one
judge call. -/
theorem claim_allfailed_eviction_witness :
    (finishProcess (startProcess (admitRequest initState "q" [] 0).2)
        (.failure "All models failed including Judge".data) 5).2 =
      some (0, .failure "All models failed including Judge".data) ∧
    (finishProcess (startProcess (admitRequest initState "q" [] 0).2)
        (.failure "All models failed including Judge".data) 5).1.inflight "q" = none ∧
    (admitRequest (finishProcess (startProcess (admitRequest initState "q" [] 0).2)
        (.failure "All models failed including Judge".data) 5).1 "q" [] 6).1 =
      .enqueued 1 ∧
    callGeminiEnsemble { success := false, model := "w1" } { success := false, model := "w2" }
      { success := false, model := "w3" } { success := false, model := "judge" } [] =
      (.error allModelsFailedMsg, 1) := by
  have hreach : Reachable (startProcess (admitRequest initState "q" [] 0).2) :=
    Relation.ReflTransGen.tail
      (Relation.ReflTransGen.tail Relation.ReflTransGen.refl
        (SStep.admission initState "q" [] 0))
      (SStep.dequeue _)
  have h := claim_allfailed_eviction (startProcess (admitRequest initState "q" [] 0).2) hreach
    ⟨"q", [], 0, 0⟩ rfl "All models failed including Judge".data 5
  exact ⟨h.1, h.2.1, h.2.2.2.1 [] 6, h.2.2.2.2
    { success := false, model := "w1" } { success := false, model := "w2" }
    { success := false, model := "w3" } { success := false, model := "judge" } [] rfl rfl rfl rfl⟩

end ChessEnsemble
